import Mathlib

/-!
Verification of the md2png Markdown-to-image renderer.

A shallow embedding of the layout core of `md2png.go` (package `md2png`):
text measurement, whitespace-preserving line wrapping, the styled-token
canvas, list layout state, the block renderer walk, and the `Render`
entry point.  Go `float64` quantities (font sizes, measured widths) are
modelled as exact rationals `ℚ`; Go `int` values as `ℤ`; Go's `int(x)`
conversion as truncation toward zero.  Font faces are abstract width
oracles, as the glyph rasterizer is outside the core.
-/

namespace Md2png

/-- Go's `int(x)` conversion of a (finite) `float64`: truncation toward zero. -/
def goInt (q : ℚ) : ℤ := if 0 ≤ q then ⌊q⌋ else ⌈q⌉

theorem goInt_nonneg {q : ℚ} (h : 0 ≤ q) : 0 ≤ goInt q := by
  unfold goInt
  rw [if_pos h]
  exact_mod_cast Int.le_floor.mpr (by exact_mod_cast h)

/-- Go's `unicode.IsSpace`: ASCII space characters, NEL, NBSP and the
Unicode `White_Space` code points. -/
def goIsSpace (c : Char) : Bool :=
  c = ' ' || c = '\t' || c = '\n' || c.val = 11 || c.val = 12 || c = '\r' ||
  c.val = 0x85 || c.val = 0xA0 || c.val = 0x1680 ||
  (0x2000 ≤ c.val && c.val ≤ 0x200A) || c.val = 0x2028 || c.val = 0x2029 ||
  c.val = 0x202F || c.val = 0x205F || c.val = 0x3000

/-- Concatenation of a list of strings (`strings.Join(lines, "")`). -/
def concatAll (l : List String) : String := l.foldr (· ++ ·) ""

theorem concatAll_nil : concatAll [] = "" := rfl

theorem concatAll_cons (s : String) (l : List String) :
    concatAll (s :: l) = s ++ concatAll l := rfl

theorem string_append_mk (a b : List Char) :
    String.mk a ++ String.mk b = String.mk (a ++ b) := rfl

theorem string_append_empty (s : String) : s ++ "" = s := by
  cases s with
  | mk d => show String.mk (d ++ []) = String.mk d; rw [List.append_nil]

theorem string_append_assoc (a b c : String) : a ++ b ++ c = a ++ (b ++ c) := by
  cases a with
  | mk da =>
    cases b with
    | mk db =>
      cases c with
      | mk dc =>
        show String.mk (da ++ db ++ dc) = String.mk (da ++ (db ++ dc))
        rw [List.append_assoc]

theorem concatAll_append (l₁ l₂ : List String) :
    concatAll (l₁ ++ l₂) = concatAll l₁ ++ concatAll l₂ := by
  induction l₁ with
  | nil => simp [concatAll_nil, concatAll]
  | cons s rest ih =>
    rw [List.cons_append, concatAll_cons, concatAll_cons, ih, string_append_assoc]

theorem concatAll_singleton (s : String) : concatAll [s] = s := by
  rw [concatAll_cons, concatAll_nil, string_append_empty]

/-! ## `splitTextPreserveSpaces` (md2png.go lines 435–465)

The Go loop walks the runes of `s`, grouping maximal runs of
same-spaceness characters.  `lastType = 0` only before the first rune and
the builder is never empty when a run ends, so the loop is equivalent to
the following structural recursion: the first rune opens the first run,
and every later rune either extends the current run (same spaceness) or
closes it and opens a new one. -/

def splitTextAux (lastIsSpace : Bool) (current : List Char) : List Char → List String
  | [] => [String.mk current]
  | c :: rest =>
    if goIsSpace c = lastIsSpace then splitTextAux lastIsSpace (current ++ [c]) rest
    else String.mk current :: splitTextAux (goIsSpace c) [c] rest

def splitTextPreserveSpaces (s : String) : List String :=
  match s.data with
  | [] => []
  | c :: rest => splitTextAux (goIsSpace c) [c] rest

theorem concatAll_splitTextAux (t : Bool) (cur l : List Char) :
    concatAll (splitTextAux t cur l) = String.mk (cur ++ l) := by
  induction l generalizing t cur with
  | nil => simp [splitTextAux, concatAll_singleton]
  | cons c rest ih =>
    by_cases h : goIsSpace c = t
    · rw [splitTextAux, if_pos h, ih, List.append_assoc]
      rfl
    · rw [splitTextAux, if_neg h, concatAll_cons, ih, string_append_mk]
      rfl

/-- Part of C9: the split parts concatenate back to the original string. -/
theorem concatAll_splitTextPreserveSpaces (s : String) :
    concatAll (splitTextPreserveSpaces s) = s := by
  cases s with
  | mk d =>
    cases d with
    | nil => rfl
    | cons c rest =>
      show concatAll (splitTextAux (goIsSpace c) [c] rest) = String.mk (c :: rest)
      rw [concatAll_splitTextAux]
      rfl

theorem splitTextAux_ne_nil (t : Bool) (cur l : List Char) :
    splitTextAux t cur l ≠ [] := by
  cases l with
  | nil => simp [splitTextAux]
  | cons c rest =>
    rw [splitTextAux]
    split <;> simp [splitTextAux_ne_nil]

theorem mem_splitTextAux_ne_empty (t : Bool) (cur l : List Char)
    (hcur : cur ≠ []) : ∀ p ∈ splitTextAux t cur l, p.data ≠ [] := by
  induction l generalizing t cur with
  | nil =>
    intro p hp
    simp [splitTextAux] at hp
    subst hp
    simpa using hcur
  | cons c rest ih =>
    intro p hp
    rw [splitTextAux] at hp
    split at hp
    · exact ih _ _ (by simp) p hp
    · rcases List.mem_cons.mp hp with h | h
      · subst h; simpa using hcur
      · exact ih _ _ (by simp) p h

/-- The spaceness of a part: the spaceness of its first character. -/
def partIsSpace (p : String) : Bool :=
  match p.data with
  | [] => false
  | c :: _ => goIsSpace c

/-- Every part produced by the split is uniform: all of its characters
have the same spaceness. -/
theorem mem_splitTextAux_uniform (t : Bool) (cur l : List Char)
    (hcur : ∀ c ∈ cur, goIsSpace c = t) :
    ∀ p ∈ splitTextAux t cur l, ∃ b, ∀ c ∈ p.data, goIsSpace c = b := by
  induction l generalizing t cur with
  | nil =>
    intro p hp
    simp [splitTextAux] at hp
    subst hp
    exact ⟨t, hcur⟩
  | cons c rest ih =>
    intro p hp
    rw [splitTextAux] at hp
    split at hp
    · refine ih t (cur ++ [c]) ?_ p hp
      intro x hx
      rcases List.mem_append.mp hx with h | h
      · exact hcur x h
      · simp at h; subst h; assumption
    · rcases List.mem_cons.mp hp with h | h
      · subst h; exact ⟨t, hcur⟩
      · exact ih _ [c] (by simp) p h

theorem splitTextAux_head_partIsSpace (t : Bool) (cur l : List Char)
    (hcur : partIsSpace (String.mk cur) = t) (hne : cur ≠ []) :
    ∃ p rest, splitTextAux t cur l = p :: rest ∧ partIsSpace p = t := by
  induction l generalizing t cur with
  | nil => exact ⟨String.mk cur, [], rfl, hcur⟩
  | cons c r ih =>
    rw [splitTextAux]
    split
    · refine ih t (cur ++ [c]) ?_ (by simp)
      cases cur with
      | nil => exact absurd rfl hne
      | cons a as => simpa [partIsSpace] using hcur
    · exact ⟨String.mk cur, _, rfl, hcur⟩

/-- Adjacent parts alternate between whitespace runs and
non-whitespace runs. -/
theorem splitTextAux_chain (t : Bool) (cur l : List Char)
    (hcur : partIsSpace (String.mk cur) = t) (hne : cur ≠ []) :
    (splitTextAux t cur l).Chain' (fun p q => partIsSpace p ≠ partIsSpace q) := by
  induction l generalizing t cur with
  | nil => simp [splitTextAux]
  | cons c r ih =>
    rw [splitTextAux]
    split
    · refine ih t (cur ++ [c]) ?_ (by simp)
      cases cur with
      | nil => exact absurd rfl hne
      | cons a as => simpa [partIsSpace] using hcur
    · rename_i hcd
      obtain ⟨p, rest, heq, hp⟩ :=
        splitTextAux_head_partIsSpace (goIsSpace c) [c] r (by simp [partIsSpace]) (by simp)
      rw [heq]
      refine List.Chain'.cons ?_ ?_
      · rw [hcur, hp]; exact fun h => hcd h.symm
      · rw [← heq]; exact ih (goIsSpace c) [c] (by simp [partIsSpace]) (by simp)

/-- C9, combined: `splitTextPreserveSpaces` concatenates back to the
input, yields only non-empty uniform parts, alternates spaceness between
adjacent parts, and maps the empty string to the empty list. -/
theorem splitTextPreserveSpaces_spec (s : String) :
    concatAll (splitTextPreserveSpaces s) = s ∧
    (∀ p ∈ splitTextPreserveSpaces s, p ≠ "") ∧
    (∀ p ∈ splitTextPreserveSpaces s, ∃ b, ∀ c ∈ p.data, goIsSpace c = b) ∧
    (splitTextPreserveSpaces s).Chain' (fun p q => partIsSpace p ≠ partIsSpace q) ∧
    splitTextPreserveSpaces "" = [] := by
  refine ⟨concatAll_splitTextPreserveSpaces s, ?_, ?_, ?_, rfl⟩
  · intro p hp
    cases s with
    | mk d =>
      cases d with
      | nil => simp [splitTextPreserveSpaces] at hp
      | cons c rest =>
        have := mem_splitTextAux_ne_empty (goIsSpace c) [c] rest (by simp) p hp
        intro hcon
        exact this (by rw [hcon])
  · intro p hp
    cases s with
    | mk d =>
      cases d with
      | nil => simp [splitTextPreserveSpaces] at hp
      | cons c rest =>
        exact mem_splitTextAux_uniform (goIsSpace c) [c] rest (by simp) p hp
  · cases s with
    | mk d =>
      cases d with
      | nil => simp [splitTextPreserveSpaces]
      | cons c rest =>
        exact splitTextAux_chain (goIsSpace c) [c] rest (by simp [partIsSpace]) (by simp)

/-- Witness for `splitTextPreserveSpaces_spec` at `"ab  cd"`: the interior
double-space part survives as a non-empty part and the whole splits back
to the input. -/
theorem splitTextPreserveSpaces_spec_witness :
    concatAll (splitTextPreserveSpaces "ab  cd") = "ab  cd" ∧
    "  " ≠ "" ∧
    splitTextPreserveSpaces "" = [] := by
  have h := splitTextPreserveSpaces_spec "ab  cd"
  exact ⟨h.1, h.2.1 "  " (by decide), h.2.2.2.2⟩

/-! ## Fonts and `measureWidth` (md2png.go lines 74–104, 244–272)

A loaded face is abstracted by its integer advance-width oracle
(`font.Drawer.MeasureString(s).Round()`) together with the point size it
was rasterized at; the rasterizer itself is outside the core. -/

structure FontAndFace where
  widthAt : String → ℤ
  baseSize : ℚ

/-- `measureWidth(fnt, size, s)`: 0 for a nil font or empty string,
otherwise the face's rounded advance width scaled linearly from the
face's base size to the requested size. -/
def measureWidth (fnt : Option FontAndFace) (size : ℚ) (s : String) : ℚ :=
  match fnt with
  | none => 0
  | some f =>
    if s = "" then 0
    else
      let width : ℚ := (f.widthAt s : ℤ)
      let base₀ := f.baseSize
      let base₁ := if base₀ ≤ 0 then size else base₀
      let base := if base₁ ≤ 0 then 1 else base₁
      let size₁ := if size ≤ 0 then base else size
      let size' := if size₁ ≤ 0 then 1 else size₁
      if size' ≠ base then width * (size' / base) else width

/-! ## `wrapLines` (md2png.go lines 312–341)

`wrapLines` scans the text into hard lines with `bufio.ScanLines` (split
on `'\n'`, one trailing `'\r'` per line dropped, a final fragment without
a newline still emitted, empty input emitting nothing), then greedily
packs the whitespace/non-whitespace runs of each hard line. -/

/-- `dropCR`: strip one trailing carriage return, as `bufio.ScanLines` does. -/
def dropCR (l : List Char) : List Char :=
  if l.getLast? = some '\r' then l.dropLast else l

/-- Split a character list at every `'\n'`; always returns one (possibly
empty) trailing segment for the text after the final newline. -/
def splitNewlines : List Char → List (List Char)
  | [] => [[]]
  | c :: rest =>
    if c = '\n' then [] :: splitNewlines rest
    else
      match splitNewlines rest with
      | [] => [[c]]
      | seg :: segs => (c :: seg) :: segs

/-- The hard lines produced by `bufio.ScanLines`: one line per newline
(the text before it), plus the final fragment when it is non-empty. -/
def scanLines (s : String) : List String :=
  ((splitNewlines s.data).dropLast ++
      (if (splitNewlines s.data).getLast? = some [] then []
       else (splitNewlines s.data).getLast?.toList)).map
    (fun l => String.mk (dropCR l))

/-- The token-packing loop of `wrapLines` over one hard line's runs:
`builder`/`width` accumulate the current output line, flushing before a
run that overflows `maxWidth` whenever the builder is non-empty; the
final builder contents are always appended. -/
def wrapAccum (meas : String → ℚ) (maxWidth : ℚ) :
    List String → String → ℚ → List String → List String
  | [], builder, _, lines => lines ++ [builder]
  | tok :: rest, builder, width, lines =>
    if tok = "" then wrapAccum meas maxWidth rest builder width lines
    else
      let w := meas tok
      if width + w > maxWidth ∧ builder ≠ "" then
        wrapAccum meas maxWidth rest tok w (lines ++ [builder])
      else
        wrapAccum meas maxWidth rest (builder ++ tok) (width + w) lines

/-- The lines contributed by one hard line: an empty hard line yields one
empty output line, otherwise its whitespace-preserving runs are packed. -/
def wrapHardLine (ff : Option FontAndFace) (size : ℚ) (maxWidth : ℚ)
    (ln : String) : List String :=
  if ln = "" then [""]
  else wrapAccum (measureWidth ff size) maxWidth (splitTextPreserveSpaces ln) "" 0 []

/-- `wrapLines(ff, size, text, maxWidth)`. -/
def wrapLines (ff : Option FontAndFace) (size : ℚ) (text : String)
    (maxWidth : ℚ) : List String :=
  (scanLines text).flatMap (wrapHardLine ff size maxWidth)

theorem concatAll_wrapAccum (meas : String → ℚ) (maxWidth : ℚ)
    (toks : List String) (builder : String) (width : ℚ) (lines : List String) :
    concatAll (wrapAccum meas maxWidth toks builder width lines) =
      concatAll lines ++ (builder ++ concatAll toks) := by
  induction toks generalizing builder width lines with
  | nil => rw [wrapAccum, concatAll_append, concatAll_singleton, concatAll_nil,
      string_append_empty]
  | cons tok rest ih =>
    rw [wrapAccum]
    split
    · rename_i h
      rw [ih, concatAll_cons, h]
      rfl
    · dsimp only
      split
      · rw [ih, concatAll_append, concatAll_singleton, concatAll_cons,
          string_append_assoc]
      · rw [ih, concatAll_cons, string_append_assoc]

/-- Concatenating the output lines of one hard line reproduces that hard
line exactly. -/
theorem concatAll_wrapHardLine (ff : Option FontAndFace) (size maxWidth : ℚ)
    (ln : String) : concatAll (wrapHardLine ff size maxWidth ln) = ln := by
  unfold wrapHardLine
  split
  · rename_i h
    rw [h]
    rfl
  · rw [concatAll_wrapAccum, concatAll_nil, concatAll_splitTextPreserveSpaces]
    rfl

theorem concatAll_flatMap_wrapHardLine (ff : Option FontAndFace)
    (size maxWidth : ℚ) (lns : List String) :
    concatAll (lns.flatMap (wrapHardLine ff size maxWidth)) = concatAll lns := by
  induction lns with
  | nil => rfl
  | cons ln rest ih =>
    rw [List.flatMap_cons, concatAll_append, concatAll_wrapHardLine,
      concatAll_cons, ih]

/-- C1: for every font, size and maximum width, the wrapped lines of each
hard line concatenate back to that hard line exactly — no characters are
added, dropped or reordered and interior whitespace survives — and hence
concatenating the whole output of `wrapLines` reproduces the
newline-stripped text. -/
theorem wrapLines_preserves_text (ff : Option FontAndFace)
    (size maxWidth : ℚ) (text : String) :
    (∀ ln ∈ scanLines text,
      concatAll (wrapHardLine ff size maxWidth ln) = ln) ∧
    concatAll (wrapLines ff size text maxWidth) = concatAll (scanLines text) := by
  constructor
  · intro ln _
    exact concatAll_wrapHardLine ff size maxWidth ln
  · exact concatAll_flatMap_wrapHardLine ff size maxWidth (scanLines text)

theorem wrapLines_preserves_text_witness :
    "ab  cd" ∈ scanLines "ab  cd\nx" ∧
    concatAll (wrapHardLine none 16 100 "ab  cd") = "ab  cd" :=
  ⟨by decide, (wrapLines_preserves_text none 16 100 "ab  cd\nx").1 _ (by decide)⟩

theorem splitTextAux_uniform_eq (t : Bool) (cur l : List Char)
    (hl : ∀ c ∈ l, goIsSpace c = t) :
    splitTextAux t cur l = [String.mk (cur ++ l)] := by
  induction l generalizing cur with
  | nil => simp [splitTextAux]
  | cons c rest ih =>
    rw [splitTextAux, if_pos (hl c (by simp))]
    rw [ih _ (fun x hx => hl x (by simp [hx]))]
    simp

theorem splitNewlines_no_newline (l : List Char) (h : '\n' ∉ l) :
    splitNewlines l = [l] := by
  induction l with
  | nil => rfl
  | cons c rest ih =>
    rw [splitNewlines, if_neg (by intro hc; exact h (by simp [hc]))]
    rw [ih (fun hc => h (by simp [hc]))]

theorem string_mk_data (s : String) : String.mk s.data = s := rfl

theorem scanLines_single (s : String) (hne : s.data ≠ [])
    (hn : '\n' ∉ s.data) (hr : s.data.getLast? ≠ some '\r') :
    scanLines s = [s] := by
  unfold scanLines
  rw [splitNewlines_no_newline s.data hn]
  have h1 : [s.data].getLast? = some s.data := rfl
  rw [h1, if_neg (by simp [hne])]
  show [String.mk (dropCR s.data)] = [s]
  unfold dropCR
  rw [if_neg hr, string_mk_data]

/-- The greedy packer has no character-level break: a hard line that is a
single run always comes back as one unbroken output line, whatever the
measured width. -/
theorem splitTextPreserveSpaces_cons (c : Char) (rest : List Char)
    (s : String) (hd : s.data = c :: rest) :
    splitTextPreserveSpaces s = splitTextAux (goIsSpace c) [c] rest := by
  unfold splitTextPreserveSpaces
  rw [hd]

theorem wrapLines_single_run (ff : Option FontAndFace) (size maxWidth : ℚ)
    (s : String) (hne : s.data ≠ []) (hns : ∀ c ∈ s.data, goIsSpace c = false) :
    wrapLines ff size s maxWidth = [s] := by
  have hn : '\n' ∉ s.data := by
    intro h
    exact absurd (hns '\n' h) (by decide)
  have hr : s.data.getLast? ≠ some '\r' := by
    intro h
    have hmem : '\r' ∈ s.data.getLast? := by rw [Option.mem_def, h]
    obtain ⟨hne', heq⟩ := List.mem_getLast?_eq_getLast hmem
    have hm : '\r' ∈ s.data := heq ▸ List.getLast_mem hne'
    exact absurd (hns '\r' hm) (by decide)
  unfold wrapLines
  rw [scanLines_single s hne hn hr, List.flatMap_cons, List.flatMap_nil,
    List.append_nil]
  unfold wrapHardLine
  rw [if_neg (by intro h; rw [h] at hne; exact hne rfl)]
  cases hd : s.data with
  | nil => exact absurd hd hne
  | cons c rest =>
    rw [splitTextPreserveSpaces_cons c rest s hd]
    have hc0 : goIsSpace c = false := hns c (by rw [hd]; simp)
    rw [splitTextAux_uniform_eq (goIsSpace c) [c] rest
      (fun x hx => by rw [hc0]; exact hns x (by rw [hd]; simp [hx]))]
    have hmk : String.mk ([c] ++ rest) = s := by
      show String.mk (c :: rest) = s
      rw [← hd]
    rw [hmk, wrapAccum]
    rw [if_neg (by intro h; rw [h] at hne; exact hne rfl)]
    dsimp only
    rw [if_neg (by simp), wrapAccum]
    simp

/-- The over-wide token of the repository's own
`TestWrapLinesPreservesIndentation`, measured with a mono-style width
oracle (10 px per character at base size 14). -/
def testMonoFace : FontAndFace := ⟨fun s => 10 * s.length, 14⟩

/-- C2: `wrapLines` never hard-breaks an over-wide token.  On the
repository's own test input — the single 31-character token at
`maxWidth = 80`, whose measured width 310 exceeds 80 — the whole token
comes back as one output line, not the ≥ 2 lines the claim (and the
repository's test) requires. -/
theorem wrapLines_no_hard_break :
    measureWidth (some testMonoFace) 14 "averyverylongtokenwithoutspaces" = 310 ∧
    (80 : ℚ) < 310 ∧
    wrapLines (some testMonoFace) 14 "averyverylongtokenwithoutspaces" 80 =
      ["averyverylongtokenwithoutspaces"] ∧
    (wrapLines (some testMonoFace) 14 "averyverylongtokenwithoutspaces" 80).length
      = 1 := by
  have hw : wrapLines (some testMonoFace) 14 "averyverylongtokenwithoutspaces" 80 =
      ["averyverylongtokenwithoutspaces"] :=
    wrapLines_single_run _ _ _ _ (by decide) (by decide)
  refine ⟨?_, by norm_num, hw, by rw [hw]; rfl⟩
  have hl : ("averyverylongtokenwithoutspaces" : String).length = 31 := by decide
  simp only [measureWidth, testMonoFace, hl,
    if_neg (show ¬("averyverylongtokenwithoutspaces" : String) = "" by decide)]
  norm_num

/-- C8 counterexample: wrapping the empty text yields the empty sequence
of lines, not a single empty line. -/
theorem wrapLines_empty_counterexample :
    wrapLines none 16 "" 100 = [] ∧
    wrapLines none 16 "" 100 ≠ [""] := by
  constructor <;> decide

/-- C8 amended: for every font, size and maximum width, wrapping the
empty text yields the empty sequence (the scanner emits no hard line for
empty input). -/
theorem wrapLines_empty (ff : Option FontAndFace) (size maxWidth : ℚ) :
    wrapLines ff size "" maxWidth = [] := rfl

/-! ## Theme and canvas (md2png.go lines 39–70, 163–310)

The pixel buffer itself is external (the glyph rasterizer draws into it);
the canvas model records the drawing commands issued (`ops`) instead of
pixels, together with the vertical cursor.  Every canvas/renderer
operation additionally records a `(cursor before, cursor after)` pair in
`trace`, so that cursor monotonicity can be stated for every operation
performed during a render. -/

structure Color where
  r : ℕ
  g : ℕ
  b : ℕ
  a : ℕ
deriving DecidableEq

structure Theme where
  BG : Color
  FG : Color
  CodeBG : Color
  QuoteBar : Color
  HRule : Color
  Link : Color
  Warning : Color
deriving DecidableEq

def lightTheme : Theme :=
  ⟨⟨0xFF, 0xFF, 0xFF, 0xFF⟩, ⟨0x11, 0x11, 0x11, 0xFF⟩, ⟨0xF5, 0xF5, 0xF7, 0xFF⟩,
   ⟨0xCC, 0xCC, 0xCC, 0xFF⟩, ⟨0xDD, 0xDD, 0xDD, 0xFF⟩, ⟨0x00, 0x55, 0xCC, 0xFF⟩,
   ⟨0xCC, 0x55, 0x00, 0xFF⟩⟩

def darkTheme : Theme :=
  ⟨⟨0x12, 0x12, 0x14, 0xFF⟩, ⟨0xEE, 0xEE, 0xF0, 0xFF⟩, ⟨0x1E, 0x1E, 0x22, 0xFF⟩,
   ⟨0x44, 0x44, 0x48, 0xFF⟩, ⟨0x33, 0x33, 0x36, 0xFF⟩, ⟨0x4A, 0x90, 0xE2, 0xFF⟩,
   ⟨0xF2, 0x91, 0x5B, 0xFF⟩⟩

/-- The zero value `Theme{}` used by `Render` to detect an unset theme. -/
def emptyTheme : Theme :=
  ⟨⟨0, 0, 0, 0⟩, ⟨0, 0, 0, 0⟩, ⟨0, 0, 0, 0⟩, ⟨0, 0, 0, 0⟩, ⟨0, 0, 0, 0⟩,
   ⟨0, 0, 0, 0⟩, ⟨0, 0, 0, 0⟩⟩

/-- The three font roles; each is a possibly-nil pointer in Go. -/
structure Fonts where
  Regular : Option FontAndFace
  Bold : Option FontAndFace
  Mono : Option FontAndFace

/-- A styled inline token produced by the Token Collector. -/
structure textToken where
  text : String := ""
  font : Option FontAndFace := none
  size : ℚ := 0
  color : Color := ⟨0, 0, 0, 0⟩
  newline : Bool := false
  underline : Bool := false

/-- A word placed on the current visual line inside `drawTokens`. -/
structure styledWord where
  text : String
  font : Option FontAndFace
  size : ℚ
  color : Color
  underline : Bool

/-- Drawing commands issued to the pixel buffer. -/
inductive DrawOp where
  | textLine (words : List styledWord) (left baseline : ℤ)
  | rect (x0 y0 x1 y1 : ℤ) (color : Color)
  | codeText (lines : List String) (left top : ℤ)

structure canvas where
  w : ℤ
  margin : ℤ
  cursorY : ℤ
  lineGap : ℤ
  th : Theme
  fonts : Fonts
  ptSize : ℚ
  ops : List DrawOp
  trace : List (ℤ × ℤ)

def newCanvas (width margin : ℤ) (th : Theme) (fonts : Fonts) (ptSize : ℚ) :
    canvas :=
  ⟨width, margin, margin, 4, th, fonts, ptSize, [], []⟩

/-- Record one operation's `(cursor before, cursor after)` pair. -/
def pushTrace (before : ℤ) (c : canvas) : canvas :=
  { c with trace := c.trace ++ [(before, c.cursorY)] }

/-- `addVSpace` (line 274). -/
def addVSpace (c : canvas) (px : ℤ) : canvas :=
  pushTrace c.cursorY { c with cursorY := c.cursorY + px }

/-- `drawHRule` (lines 276–281). -/
def drawHRule (c : canvas) : canvas :=
  let y := c.cursorY + 4
  pushTrace c.cursorY
    { c with
      ops := c.ops ++ [.rect c.margin y (c.w - c.margin) (y + 2) c.th.HRule]
      cursorY := y + 10 }

/-- `drawBlockquoteBar` (lines 283–287); does not move the cursor. -/
def drawBlockquoteBar (c : canvas) (topY height : ℤ) : canvas :=
  pushTrace c.cursorY
    { c with
      ops := c.ops ++ [.rect c.margin topY (c.margin + 4) (topY + height) c.th.QuoteBar] }

/-- `drawCodeBlock` (lines 289–310): background rectangle sized to the
wrapped monospace lines, then the lines themselves. -/
def drawCodeBlock (c : canvas) (text : String) (left right : ℤ) (size : ℚ) :
    canvas :=
  let pad : ℤ := 10
  let top := c.cursorY
  let mono := c.fonts.Mono
  let lines := wrapLines mono size text ((right - left - 2 * pad : ℤ) : ℚ)
  let lineHeight := goInt (size * 1.4)
  let height := (lines.length : ℤ) * lineHeight + 2 * pad + 6
  pushTrace c.cursorY
    { c with
      ops := c.ops ++
        [.rect left top right (top + height) c.th.CodeBG,
         .codeText lines (left + pad) (top + pad + goInt size)]
      cursorY := top + height + 6 }

/-! ## `drawTokens` (md2png.go lines 467–560) -/

/-- The mutable locals of `drawTokens`: the pending visual line, its
accumulated width, the largest token size on it, and the canvas. -/
structure DTState where
  line : List styledWord
  lineWidth : ℚ
  lineMaxSize : ℚ
  c : canvas

/-- The `flush` closure: an empty line advances the cursor only when
forced (blank line), a non-empty line is drawn at a baseline computed
from the largest token size and the cursor advances by 1.5× that size. -/
def flushLine (left : ℤ) (force : Bool) (s : DTState) : DTState :=
  if s.line.isEmpty then
    if force then
      let heightSize := if s.lineMaxSize = 0 then s.c.ptSize else s.lineMaxSize
      let height₀ := goInt (heightSize * 1.5 + 0.5)
      let height := if height₀ ≤ 0 then goInt (s.c.ptSize * 1.5 + 0.5) else height₀
      { s with c := { s.c with cursorY := s.c.cursorY + height } }
    else s
  else
    let baselineSize := if s.lineMaxSize = 0 then s.c.ptSize else s.lineMaxSize
    let baseline := s.c.cursorY + goInt baselineSize
    let lineHeight₀ := goInt (baselineSize * 1.5 + 0.5)
    let lineHeight := if lineHeight₀ ≤ 0 then goInt (s.c.ptSize * 1.5 + 0.5) else lineHeight₀
    { line := []
      lineWidth := 0
      lineMaxSize := 0
      c := { s.c with
              ops := s.c.ops ++ [.textLine s.line left baseline]
              cursorY := s.c.cursorY + lineHeight } }

/-- The per-segment body of `drawTokens`: a whitespace segment on an
empty line is discarded, otherwise segments accumulate, flushing first
when a non-whitespace segment overflows a non-empty line. -/
def dtSeg (left : ℤ) (maxWidth : ℚ) (font : Option FontAndFace)
    (tok : textToken) (s : DTState) (seg : String) : DTState :=
  match seg.data with
  | [] => s
  | ch :: _ =>
    let segWidth := measureWidth font tok.size seg
    let word : styledWord :=
      ⟨seg, font, tok.size, tok.color, tok.underline⟩
    if goIsSpace ch then
      if s.line.isEmpty then s
      else
        { s with
          line := s.line ++ [word]
          lineMaxSize := if tok.size > s.lineMaxSize then tok.size else s.lineMaxSize
          lineWidth := s.lineWidth + segWidth }
    else
      let s₁ := if s.lineWidth + segWidth > maxWidth ∧ s.line.isEmpty = false then
          flushLine left false s
        else s
      { s₁ with
        line := s₁.line ++ [word]
        lineMaxSize := if tok.size > s₁.lineMaxSize then tok.size else s₁.lineMaxSize
        lineWidth := s₁.lineWidth + segWidth }

/-- The per-token body of `drawTokens`: a newline token force-flushes,
a text token is split into whitespace/non-whitespace segments. -/
def dtTok (left : ℤ) (maxWidth : ℚ) (s : DTState) (tok : textToken) : DTState :=
  if tok.newline then flushLine left true s
  else
    let font := if tok.font.isNone then s.c.fonts.Regular else tok.font
    (splitTextPreserveSpaces tok.text).foldl (dtSeg left maxWidth font tok) s

/-- `drawTokens(tokens, left, right)`. -/
def drawTokens (c : canvas) (tokens : List textToken) (left right : ℤ) : canvas :=
  if tokens.isEmpty then c
  else
    let maxWidth : ℚ := ((right - left : ℤ) : ℚ)
    let s₀ : DTState := ⟨[], 0, 0, c⟩
    let s₁ := tokens.foldl (dtTok left maxWidth) s₀
    let s₂ := flushLine left false s₁
    pushTrace c.cursorY s₂.c

/-! ## The parsed document tree

The parser (goldmark) is outside the core; the renderer consumes a tree
of typed nodes.  Kinds the renderer dispatches on get their own
constructors; every other node kind is `unknown` (carrying its kind
string and whether it is an inline node). -/

inductive MdNode where
  | text (s : String) (softBreak hardBreak : Bool)
  | emphasis (level : ℕ) (children : List MdNode)
  | link (children : List MdNode)
  | codeSpan (txt : String)
  | paragraph (children : List MdNode)
  | heading (level : ℕ) (children : List MdNode)
  | list (isOrdered : Bool) (start : ℤ) (isTight : Bool) (children : List MdNode)
  | listItem (children : List MdNode)
  | codeBlock (txt : String)
  | blockquote (children : List MdNode)
  | thematicBreak
  | table (children : List MdNode)
  | tableHeader (children : List MdNode)
  | tableRow (children : List MdNode)
  | tableCell (children : List MdNode)
  | document (children : List MdNode)
  | unknown (kind : String) (isInline : Bool) (children : List MdNode)

def MdNode.childrenOf : MdNode → List MdNode
  | .text _ _ _ => []
  | .emphasis _ ch => ch
  | .link ch => ch
  | .codeSpan _ => []
  | .paragraph ch => ch
  | .heading _ ch => ch
  | .list _ _ _ ch => ch
  | .listItem ch => ch
  | .codeBlock _ => []
  | .blockquote ch => ch
  | .thematicBreak => []
  | .table ch => ch
  | .tableHeader ch => ch
  | .tableRow ch => ch
  | .tableCell ch => ch
  | .document ch => ch
  | .unknown _ _ ch => ch

/-- `n.Kind().String()` for the nodes the default arm can see. -/
def MdNode.kindOf : MdNode → String
  | .text _ _ _ => "Text"
  | .emphasis _ _ => "Emphasis"
  | .link _ => "Link"
  | .codeSpan _ => "CodeSpan"
  | .paragraph _ => "Paragraph"
  | .heading _ _ => "Heading"
  | .list _ _ _ _ => "List"
  | .listItem _ => "ListItem"
  | .codeBlock _ => "CodeBlock"
  | .blockquote _ => "Blockquote"
  | .thematicBreak => "ThematicBreak"
  | .table _ => "Table"
  | .tableHeader _ => "TableHeader"
  | .tableRow _ => "TableRow"
  | .tableCell _ => "TableCell"
  | .document _ => "Document"
  | .unknown kind _ _ => kind

/-- `n.Type() == ast.TypeInline` for the nodes the default arm can see. -/
def MdNode.isInlineNode : MdNode → Bool
  | .text _ _ _ => true
  | .emphasis _ _ => true
  | .link _ => true
  | .codeSpan _ => true
  | .unknown _ i _ => i
  | _ => false

/-! ## `collectInlineTokens` (md2png.go lines 375–425) -/

def newlineToken : textToken := { newline := true }

/-- The `strings.Split(text, "\n")` loop of the `ast.Text` case: each
non-empty part becomes a token and each interior newline a break token. -/
def textPartTokens (font : Option FontAndFace) (size : ℚ) (color : Color)
    (underline : Bool) : List String → List textToken
  | [] => []
  | [p] =>
    if p = "" then []
    else [{ text := p, font := font, size := size, color := color,
            underline := underline }]
  | p :: q :: rest =>
    (if p = "" then []
     else [{ text := p, font := font, size := size, color := color,
             underline := underline : textToken }]) ++
      [newlineToken] ++ textPartTokens font size color underline (q :: rest)

mutual

def collectInlineTokens (fonts : Fonts) (th : Theme) (font : Option FontAndFace)
    (size : ℚ) (color : Color) (underline : Bool) (children : List MdNode) :
    List textToken :=
  collectChildren fonts th (if font.isNone then fonts.Regular else font)
    size color underline children
termination_by (sizeOf children, 1)

def collectChildren (fonts : Fonts) (th : Theme) (font : Option FontAndFace)
    (size : ℚ) (color : Color) (underline : Bool) :
    List MdNode → List textToken
  | [] => []
  | child :: rest =>
    (match child with
     | .text s soft hard =>
       (if s = "" then []
        else textPartTokens font size color underline (s.splitOn "\n")) ++
         (if soft || hard then [newlineToken] else [])
     | .paragraph ch =>
       collectInlineTokens fonts th font size color underline ch ++
         (if rest.isEmpty then [] else [newlineToken])
     | .emphasis lvl ch =>
       collectInlineTokens fonts th
         (if 2 ≤ lvl ∧ fonts.Bold.isSome then fonts.Bold else font)
         size color underline ch
     | .link ch => collectInlineTokens fonts th font size th.Link true ch
     | .codeSpan txt =>
       if txt = "" then []
       else [{ text := txt,
               font := if fonts.Mono.isNone then font else fonts.Mono,
               size := size * 0.95, color := color, underline := underline }]
     | .heading _ ch => collectInlineTokens fonts th font size color underline ch
     | .list _ _ _ ch => collectInlineTokens fonts th font size color underline ch
     | .listItem ch => collectInlineTokens fonts th font size color underline ch
     | .codeBlock _ => []
     | .blockquote ch => collectInlineTokens fonts th font size color underline ch
     | .thematicBreak => []
     | .table ch => collectInlineTokens fonts th font size color underline ch
     | .tableHeader ch => collectInlineTokens fonts th font size color underline ch
     | .tableRow ch => collectInlineTokens fonts th font size color underline ch
     | .tableCell ch => collectInlineTokens fonts th font size color underline ch
     | .document ch => collectInlineTokens fonts th font size color underline ch
     | .unknown _ _ ch =>
       collectInlineTokens fonts th font size color underline ch) ++
      collectChildren fonts th font size color underline rest
termination_by l => (sizeOf l, 0)

end

/-! ## Table rendering helpers (md2png.go lines 887–936) -/

def runeCount (s : String) : ℤ := (s.length : ℤ)

def goTrimSpace (s : String) : String :=
  String.mk
    (((s.data.dropWhile (fun c => goIsSpace c)).reverse.dropWhile
      (fun c => goIsSpace c)).reverse)

/-- `tokensToString` (lines 920–932). -/
def tokensToString (tokens : List textToken) : String :=
  goTrimSpace
    (tokens.foldl
      (fun acc tok =>
        if tok.newline then (if acc = "" then acc else acc ++ " ")
        else acc ++ tok.text) "")

def spaceRepeat (n : ℤ) : String := String.mk (List.replicate n.toNat ' ')

def dashRepeat (n : ℤ) : String := String.mk (List.replicate n.toNat '-')

/-! ## Renderer state and list layout (md2png.go lines 345–373, 562–659) -/

structure listContext where
  indent : ℤ
  contentLeft : ℤ
  markerArea : ℤ
  isOrdered : Bool
  counter : ℤ
  tight : Bool

structure listItemContext where
  marker : String
  drawn : Bool

structure RState where
  c : canvas
  baseSize : ℚ
  listStack : List listContext
  itemStack : List listItemContext

/-- Record a renderer-level operation's cursor pair. -/
def traceR (before : ℤ) (r : RState) : RState :=
  { r with c := pushTrace before r.c }

/-- `currentListContext` (lines 562–567): the top of the stack. -/
def currentListContext (r : RState) : Option listContext :=
  r.listStack.getLast?

/-- `currentItemContext` (lines 569–574). -/
def currentItemContext (r : RState) : Option listItemContext :=
  r.itemStack.getLast?

/-- `pushListContext` (lines 576–594). -/
def pushListContext (r : RState) (isOrdered : Bool) (start : ℤ)
    (isTight : Bool) : RState :=
  let level := (r.listStack.length : ℤ)
  let indentStep := goInt (r.baseSize * 1.8)
  let markerArea := goInt (r.baseSize * 2.8)
  let indent := r.c.margin + level * indentStep
  let counter := if start ≤ 0 then 1 else start
  let ctx : listContext :=
    ⟨indent, indent + markerArea, markerArea, isOrdered, counter, isTight⟩
  traceR r.c.cursorY
    { r with
      listStack := r.listStack ++ [ctx]
      c := addVSpace r.c (goInt (r.baseSize * 0.3)) }

/-- `popListContext` (lines 596–602). -/
def popListContext (r : RState) : RState :=
  if r.listStack.isEmpty then r
  else
    traceR r.c.cursorY
      { r with
        listStack := r.listStack.dropLast
        c := addVSpace r.c (goInt (r.baseSize * 0.5)) }

/-- `beginListItem` (lines 604–615): computes the item marker from the
list's running counter (incremented after use, ordered lists only). -/
def beginListItem (r : RState) : RState :=
  match r.listStack.getLast? with
  | none => r
  | some ctx =>
    let marker := if ctx.isOrdered then toString ctx.counter ++ "." else "•"
    let listStack :=
      if ctx.isOrdered then
        r.listStack.dropLast ++ [{ ctx with counter := ctx.counter + 1 }]
      else r.listStack
    traceR r.c.cursorY
      { r with
        listStack := listStack
        itemStack := r.itemStack ++ [⟨marker, false⟩] }

/-- `drawListMarker` (lines 635–643): draws the marker into the marker
column, then restores the cursor to where it started. -/
def drawListMarker (r : RState) (marker : String) (ctx : listContext) : RState :=
  let start := r.c.cursorY
  let tokens : List textToken :=
    [{ text := marker, font := r.c.fonts.Regular, size := r.baseSize,
       color := r.c.th.FG }]
  let c₁ := drawTokens r.c tokens ctx.indent (ctx.indent + ctx.markerArea)
  { r with c := pushTrace start { c₁ with cursorY := start } }

/-- `endListItem` (lines 617–633). -/
def endListItem (r : RState) : RState :=
  if r.itemStack.isEmpty then r
  else
    let r₁ :=
      match r.listStack.getLast? with
      | none => r
      | some ctx =>
        match r.itemStack.getLast? with
        | none => r
        | some item =>
          if item.drawn then r
          else
            let r' := drawListMarker r item.marker ctx
            { r' with c := { r'.c with
                cursorY := r'.c.cursorY + goInt (r.baseSize * 1.2) } }
    let spacing :=
      match r.listStack.getLast? with
      | some ctx =>
        if ctx.tight then goInt (r.baseSize * 0.45) else goInt (r.baseSize * 0.75)
      | none => goInt (r.baseSize * 0.75)
    traceR r.c.cursorY
      { r₁ with
        itemStack := r₁.itemStack.dropLast
        c := addVSpace r₁.c spacing }

/-- `ensureListMarker` (lines 645–653). -/
def ensureListMarker (r : RState) : RState :=
  match r.listStack.getLast? with
  | none => r
  | some ctx =>
    match r.itemStack.getLast? with
    | none => r
    | some item =>
      if item.drawn then r
      else
        let r' := drawListMarker r item.marker ctx
        { r' with
          itemStack := r'.itemStack.dropLast ++ [{ item with drawn := true }] }

/-- `renderUnsupportedNode` (lines 655–659): one warning-colored marker
token at 0.9× the base size, then a vertical gap. -/
def renderUnsupportedNode (r : RState) (kind : String) (left : ℤ) : RState :=
  let tokens : List textToken :=
    [{ text := "⚠ unsupported: " ++ kind, font := r.c.fonts.Regular,
       size := r.baseSize * 0.9, color := r.c.th.Warning }]
  traceR r.c.cursorY
    { r with
      c := addVSpace (drawTokens r.c tokens left (r.c.w - r.c.margin))
        (goInt r.baseSize) }

/-! ## Table layout (md2png.go lines 801–918) -/

/-- `tableCellTokens` (lines 910–918). -/
def tableCellTokens (r : RState) (cell : MdNode) (header : Bool) :
    List textToken :=
  let font :=
    if header ∧ r.c.fonts.Bold.isSome then r.c.fonts.Bold else r.c.fonts.Regular
  collectInlineTokens r.c.fonts r.c.th font r.baseSize r.c.th.FG false
    cell.childrenOf

/-- `extractTableRow` (lines 901–908). -/
def extractTableRow (r : RState) (cells : List MdNode) (header : Bool) :
    List String :=
  cells.map (fun cell => tokensToString (tableCellTokens r cell header))

/-- `extractTableRows` (lines 887–899). -/
def extractTableRows (r : RState) (children : List MdNode) :
    List String × List (List String) :=
  children.foldl
    (fun (acc : List String × List (List String)) child =>
      match child with
      | .tableHeader cells => (extractTableRow r cells true, acc.2)
      | .tableRow cells => (acc.1, acc.2 ++ [extractTableRow r cells false])
      | _ => acc)
    ([], [])

/-- The cell loop of `drawTableLine` (lines 856–868). -/
def tableCellsStr (cells : List String) : List ℤ → ℕ → String
  | [], _ => ""
  | width :: ws, i =>
    let cell := (cells[i]?).getD ""
    let pad := width - runeCount cell
    cell ++ (if 0 < pad then spaceRepeat pad else "") ++ " | " ++
      tableCellsStr cells ws (i + 1)

/-- `drawTableLine` (lines 854–874). -/
def drawTableLine (r : RState) (cells : List String) (widths : List ℤ)
    (left : ℤ) (font : Option FontAndFace) (bold : Bool) : RState :=
  let line := "| " ++ tableCellsStr cells widths 0
  let tokFont := if bold ∧ r.c.fonts.Bold.isSome then r.c.fonts.Bold else font
  let tokens : List textToken :=
    [{ text := line, font := tokFont, size := r.baseSize * 0.95,
       color := r.c.th.FG }]
  traceR r.c.cursorY
    { r with c := drawTokens r.c tokens left (r.c.w - r.c.margin) }

/-- `drawTableSeparator` (lines 876–885). -/
def drawTableSeparator (r : RState) (widths : List ℤ) (left : ℤ)
    (font : Option FontAndFace) : RState :=
  let line := "| " ++ concatAll (widths.map (fun w => dashRepeat w ++ " | "))
  let tokens : List textToken :=
    [{ text := line, font := font, size := r.baseSize * 0.9, color := r.c.th.FG }]
  traceR r.c.cursorY
    { r with c := drawTokens r.c tokens left (r.c.w - r.c.margin) }

/-- One column's width (lines 819–836): the largest rune count among the
header cell and body cells of that column, at least 3. -/
def tableColWidth (header : List String) (rows : List (List String))
    (i : ℕ) : ℤ :=
  let w₀ : ℤ :=
    match header[i]? with
    | some cell => max 0 (runeCount cell)
    | none => 0
  let w₁ := rows.foldl
    (fun w row =>
      match row[i]? with
      | some cell => max w (runeCount cell)
      | none => w) w₀
  if w₁ < 3 then 3 else w₁

/-- The `ensureListMarker`-plus-content-left prologue shared by the code
block, blockquote, table and default arms (for example lines 750–754 and
802–806). -/
def ensureAndLeft (r : RState) : RState × ℤ :=
  match r.listStack.getLast? with
  | some ctx => (ensureListMarker r, ctx.contentLeft)
  | none => (r, r.c.margin)

/-- `renderTable` (lines 801–852). -/
def renderTable (r : RState) (children : List MdNode) : RState :=
  let r₁ := (ensureAndLeft r).1
  let left := (ensureAndLeft r).2
  let header := (extractTableRows r₁ children).1
  let rows := (extractTableRows r₁ children).2
  let columnCount := rows.foldl (fun m row => max m row.length) header.length
  if columnCount = 0 then r₁
  else
    let widths := (List.range columnCount).map (tableColWidth header rows)
    let mono :=
      if r₁.c.fonts.Mono.isNone then r₁.c.fonts.Regular else r₁.c.fonts.Mono
    let r₂ := { r₁ with c := addVSpace r₁.c (goInt (r.baseSize * 0.6)) }
    let r₃ :=
      if header.isEmpty then r₂
      else drawTableSeparator (drawTableLine r₂ header widths left mono true)
        widths left mono
    let r₄ := rows.foldl (fun st row => drawTableLine st row widths left mono false) r₃
    let r₅ := { r₄ with c := addVSpace r₄.c (goInt (r.baseSize * 0.8)) }
    traceR r.c.cursorY r₅

/-! ## The block renderer walk (md2png.go lines 661–799)

`ast.Walk` calls the walker on entry; unless it returns skip-children it
then walks the children (stopping on error or `WalkStop`), and finally
calls the walker with `entering = false`.  The `List`/`ListItem` arms act
on both entry and exit; every other arm acts on entry only. -/

inductive WalkStatus where
  | walkContinue
  | walkSkipChildren
  | walkStop
deriving DecidableEq

/-- Heading level → font size multiplier (lines 690–703). -/
def headingSize (b : ℚ) (lvl : ℕ) : ℚ :=
  match lvl with
  | 1 => b * 1.9
  | 2 => b * 1.6
  | 3 => b * 1.4
  | 4 => b * 1.25
  | _ => b * 1.15

/-- The marker-interleave prologue shared by the heading and paragraph
arms (lines 705–717 and 725–737): inside a list item whose marker is not
yet drawn, the marker text and a six-space gap are prepended as tokens,
drawing starts at the list indent and the item is flagged drawn;
otherwise drawing starts at the item content margin (or the page margin
outside lists). -/
def markerInterleave (r : RState) : RState × List textToken × ℤ :=
  match r.listStack.getLast? with
  | none => (r, [], r.c.margin)
  | some ctx =>
    match r.itemStack.getLast? with
    | some item =>
      if item.drawn then (r, [], ctx.contentLeft)
      else
        let toks : List textToken :=
          [{ text := item.marker, font := r.c.fonts.Regular,
             size := r.baseSize, color := r.c.th.FG },
           { text := spaceRepeat 6, font := r.c.fonts.Regular,
             size := r.baseSize, color := r.c.th.FG }]
        ({ r with itemStack := r.itemStack.dropLast ++ [{ item with drawn := true }] },
          toks, ctx.indent)
    | none => (r, [], ctx.contentLeft)

/-- The walker's entering call: returns the new state, the walk status,
and the error (every arm of the source returns a nil error). -/
def enterNode (r : RState) (n : MdNode) : RState × WalkStatus × Option String :=
  match n with
  | .list isOrdered start isTight _ =>
    (pushListContext r isOrdered start isTight, .walkContinue, none)
  | .listItem _ => (beginListItem r, .walkContinue, none)
  | .heading lvl ch =>
    let size := headingSize r.baseSize lvl
    let r₁ := (markerInterleave r).1
    let tokens₀ := (markerInterleave r).2.1
    let left := (markerInterleave r).2.2
    let tokens := tokens₀ ++
      collectInlineTokens r₁.c.fonts r₁.c.th r₁.c.fonts.Regular size
        r₁.c.th.FG false ch
    let r₂ := { r₁ with c := addVSpace r₁.c (goInt (r.baseSize * 0.6)) }
    let r₃ := { r₂ with c := drawTokens r₂.c tokens left (r₂.c.w - r₂.c.margin) }
    ({ r₃ with c := addVSpace r₃.c (goInt (r.baseSize * 0.75)) },
      .walkSkipChildren, none)
  | .paragraph ch =>
    let r₁ := (markerInterleave r).1
    let tokens₀ := (markerInterleave r).2.1
    let left := (markerInterleave r).2.2
    let tokens := tokens₀ ++
      collectInlineTokens r₁.c.fonts r₁.c.th r₁.c.fonts.Regular r.baseSize
        r₁.c.th.FG false ch
    if tokens.isEmpty then (r₁, .walkSkipChildren, none)
    else
      let r₂ := { r₁ with c := drawTokens r₁.c tokens left (r₁.c.w - r₁.c.margin) }
      let spacing :=
        if r₂.listStack.isEmpty then goInt (r.baseSize * 1.5)
        else goInt (r.baseSize * 0.6)
      ({ r₂ with c := addVSpace r₂.c spacing }, .walkSkipChildren, none)
  | .codeBlock txt =>
    let r₁ := (ensureAndLeft r).1
    let left := (ensureAndLeft r).2
    let r₂ := { r₁ with c := addVSpace r₁.c 4 }
    ({ r₂ with
        c := drawCodeBlock r₂.c txt left (r₂.c.w - r₂.c.margin)
          (r.baseSize * 0.95) },
      .walkSkipChildren, none)
  | .blockquote ch =>
    let startY := r.c.cursorY
    let r₁ := (ensureAndLeft r).1
    let left := (ensureAndLeft r).2
    let tokens :=
      collectInlineTokens r₁.c.fonts r₁.c.th r₁.c.fonts.Regular
        (r.baseSize * 1.0) r₁.c.th.FG false ch
    if tokens.isEmpty then (r₁, .walkSkipChildren, none)
    else
      let r₂ := { r₁ with c := addVSpace r₁.c 2 }
      let r₃ := { r₂ with
        c := drawTokens r₂.c tokens (left + 10) (r₂.c.w - r₂.c.margin) }
      let r₄ := { r₃ with c := addVSpace r₃.c 6 }
      ({ r₄ with
          c := drawBlockquoteBar r₄.c (startY + 2) (r₄.c.cursorY - startY - 2) },
        .walkSkipChildren, none)
  | .thematicBreak => ({ r with c := drawHRule r.c }, .walkSkipChildren, none)
  | .text _ _ _ => (r, .walkContinue, none)
  | .table ch => (renderTable r ch, .walkSkipChildren, none)
  | .document _ => (r, .walkContinue, none)
  | other =>
    if other.isInlineNode then (r, .walkContinue, none)
    else
      (renderUnsupportedNode (ensureAndLeft r).1 other.kindOf (ensureAndLeft r).2,
        .walkSkipChildren, none)

/-- The walker's exiting call: only `List` and `ListItem` act on exit. -/
def exitNode (r : RState) (n : MdNode) : RState × WalkStatus × Option String :=
  match n with
  | .list _ _ _ _ => (popListContext r, .walkContinue, none)
  | .listItem _ => (endListItem r, .walkContinue, none)
  | _ => (r, .walkContinue, none)

theorem sizeOf_childrenOf_le (n : MdNode) : sizeOf n.childrenOf ≤ sizeOf n := by
  cases n <;> simp [MdNode.childrenOf]

mutual

/-- goldmark's `walkHelper`: enter, recurse into children unless skipped
(propagating stop/error), then exit. -/
def walkNode (r : RState) (n : MdNode) : RState × WalkStatus × Option String :=
  match enterNode r n with
  | (r₁, ws, some e) => (r₁, ws, some e)
  | (r₁, ws, none) =>
    if ws = .walkStop then (r₁, ws, none)
    else
      match
        (if ws = .walkSkipChildren then (r₁, .walkContinue, none)
         else walkList r₁ n.childrenOf : RState × WalkStatus × Option String)
      with
      | (r₂, ws₂, some e) => (r₂, ws₂, some e)
      | (r₂, ws₂, none) =>
        if ws₂ = .walkStop then (r₂, ws₂, none)
        else exitNode r₂ n
termination_by (sizeOf n, 1)
decreasing_by
  rcases Nat.lt_or_ge (sizeOf n.childrenOf) (sizeOf n) with h | h
  · exact Prod.Lex.left _ _ h
  · have heq : sizeOf n.childrenOf = sizeOf n :=
      Nat.le_antisymm (sizeOf_childrenOf_le n) h
    rw [heq]
    exact Prod.Lex.right _ (by omega)

def walkList (r : RState) (l : List MdNode) : RState × WalkStatus × Option String :=
  match l with
  | [] => (r, .walkContinue, none)
  | n :: rest =>
    match walkNode r n with
    | (r₁, ws, some e) => (r₁, ws, some e)
    | (r₁, ws, none) =>
      if ws = .walkStop then (r₁, ws, none)
      else walkList r₁ rest
termination_by (sizeOf l, 0)

end

/-- `renderer.render` (lines 661–799): walk the parsed document and
return the walk error (parsing is external, so the model takes the tree). -/
def render (r : RState) (doc : MdNode) : RState × Option String :=
  let (r', _, e) := walkNode r doc
  (r', e)

/-! ## `Render` entry point (md2png.go lines 964–1025) -/

/-- `RenderOptions`; zero values select defaults. -/
structure RenderOptions where
  Width : ℤ := 0
  Margin : ℤ := 0
  BaseFontSize : ℚ := 0
  theme : Theme := emptyTheme
  fontRegular : Option FontAndFace := none
  fontBold : Option FontAndFace := none
  fontMono : Option FontAndFace := none

/-- The final image, abstracted to its dimensions (the pixel copy is a
crop of the canvas to `used` height). -/
structure RImage where
  width : ℤ
  height : ℤ
deriving DecidableEq

/-- `Render(data, opts)`.  Defaults: 1024 px width, 48 px margin, 16 pt
base size, light theme.  Missing fonts fall back to the bundled faces
(`loadFonts` with no font paths; loading the embedded TTF data is
external I/O modelled by the three supplied width oracles, parsing of
which succeeds).  The canvas is cropped to `cursorY + margin`, floored at
`margin + 50`. -/
def Render (bundledRegular bundledBold bundledMono : String → ℤ)
    (doc : MdNode) (opts : RenderOptions) : Except String RImage :=
  let width := if opts.Width ≤ 0 then 1024 else opts.Width
  let margin := if opts.Margin ≤ 0 then 48 else opts.Margin
  let base := if opts.BaseFontSize ≤ 0 then 16 else opts.BaseFontSize
  let theme := if opts.theme = emptyTheme then lightTheme else opts.theme
  let fallbackNeeded :=
    opts.fontRegular.isNone || opts.fontBold.isNone || opts.fontMono.isNone
  let fRegular :=
    if fallbackNeeded && opts.fontRegular.isNone then
      some ⟨bundledRegular, base⟩
    else opts.fontRegular
  let fBold :=
    if fallbackNeeded && opts.fontBold.isNone then some ⟨bundledBold, base⟩
    else opts.fontBold
  let fMono :=
    if fallbackNeeded && opts.fontMono.isNone then some ⟨bundledMono, base⟩
    else opts.fontMono
  if fRegular.isNone || fBold.isNone || fMono.isNone then
    .error "md2png: incomplete font configuration"
  else
    let fonts : Fonts := ⟨fRegular, fBold, fMono⟩
    let c := newCanvas width margin theme fonts base
    let r : RState := ⟨c, base, [], []⟩
    match render r doc with
    | (_, some e) => .error e
    | (r', none) =>
      let used₀ := r'.c.cursorY + margin
      let used := if used₀ < margin + 50 then margin + 50 else used₀
      .ok ⟨width, used⟩

/-- The cursor position the renderer ends at inside `Render`, under the
same option-defaulting and font-fallback rules — the "content height"
datum the final image height is computed from. -/
def finalCursor (bundledRegular bundledBold bundledMono : String → ℤ)
    (doc : MdNode) (opts : RenderOptions) : ℤ :=
  let width := if opts.Width ≤ 0 then 1024 else opts.Width
  let margin := if opts.Margin ≤ 0 then 48 else opts.Margin
  let base := if opts.BaseFontSize ≤ 0 then 16 else opts.BaseFontSize
  let theme := if opts.theme = emptyTheme then lightTheme else opts.theme
  let fallbackNeeded :=
    opts.fontRegular.isNone || opts.fontBold.isNone || opts.fontMono.isNone
  let fRegular :=
    if fallbackNeeded && opts.fontRegular.isNone then
      some ⟨bundledRegular, base⟩
    else opts.fontRegular
  let fBold :=
    if fallbackNeeded && opts.fontBold.isNone then some ⟨bundledBold, base⟩
    else opts.fontBold
  let fMono :=
    if fallbackNeeded && opts.fontMono.isNone then some ⟨bundledMono, base⟩
    else opts.fontMono
  let fonts : Fonts := ⟨fRegular, fBold, fMono⟩
  let c := newCanvas width margin theme fonts base
  let r : RState := ⟨c, base, [], []⟩
  (render r doc).1.c.cursorY

/-! ## Cursor monotonicity infrastructure

`CStep c c'` (resp. `RStep r r'`) says an operation took the canvas
(renderer) from `c` to `c'` moving the cursor only downwards, appending
only well-ordered trace entries, and preserving the font sizes the
monotonicity argument depends on. -/

def TraceOK (l : List (ℤ × ℤ)) : Prop := ∀ p ∈ l, p.1 ≤ p.2

theorem traceOK_nil : TraceOK [] := by intro p hp; simp at hp

theorem traceOK_append {a b : List (ℤ × ℤ)} (ha : TraceOK a) (hb : TraceOK b) :
    TraceOK (a ++ b) := by
  intro p hp
  rcases List.mem_append.mp hp with h | h
  · exact ha p h
  · exact hb p h

structure CStep (c c' : canvas) : Prop where
  mono : c.cursorY ≤ c'.cursorY
  trace : ∃ Δ, c'.trace = c.trace ++ Δ ∧ TraceOK Δ
  pt : c'.ptSize = c.ptSize

theorem CStep.crefl (c : canvas) : CStep c c :=
  ⟨le_refl _, ⟨[], by simp, traceOK_nil⟩, rfl⟩

theorem CStep.ctrans {a b c : canvas} (h₁ : CStep a b) (h₂ : CStep b c) :
    CStep a c := by
  obtain ⟨Δ₁, he₁, ho₁⟩ := h₁.trace
  obtain ⟨Δ₂, he₂, ho₂⟩ := h₂.trace
  exact ⟨le_trans h₁.mono h₂.mono,
    ⟨Δ₁ ++ Δ₂, by rw [he₂, he₁, List.append_assoc], traceOK_append ho₁ ho₂⟩,
    h₂.pt.trans h₁.pt⟩

structure RStep (r r' : RState) : Prop where
  mono : r.c.cursorY ≤ r'.c.cursorY
  trace : ∃ Δ, r'.c.trace = r.c.trace ++ Δ ∧ TraceOK Δ
  pt : r'.c.ptSize = r.c.ptSize
  base : r'.baseSize = r.baseSize

theorem RStep.rrefl (r : RState) : RStep r r :=
  ⟨le_refl _, ⟨[], by simp, traceOK_nil⟩, rfl, rfl⟩

theorem RStep.rtrans {a b c : RState} (h₁ : RStep a b) (h₂ : RStep b c) :
    RStep a c := by
  obtain ⟨Δ₁, he₁, ho₁⟩ := h₁.trace
  obtain ⟨Δ₂, he₂, ho₂⟩ := h₂.trace
  exact ⟨le_trans h₁.mono h₂.mono,
    ⟨Δ₁ ++ Δ₂, by rw [he₂, he₁, List.append_assoc], traceOK_append ho₁ ho₂⟩,
    h₂.pt.trans h₁.pt, h₂.base.trans h₁.base⟩

theorem RStep.ofC {r : RState} {c' : canvas} (h : CStep r.c c') :
    RStep r { r with c := c' } :=
  ⟨h.mono, h.trace, h.pt, rfl⟩

theorem RStep.ofC' {r : RState} {c' : canvas} (ls : List listContext)
    (its : List listItemContext) (h : CStep r.c c') :
    RStep r { r with c := c', listStack := ls, itemStack := its } :=
  ⟨h.mono, h.trace, h.pt, rfl⟩

theorem pushTrace_cstep {c : canvas} {b : ℤ} (h : b ≤ c.cursorY) :
    CStep c (pushTrace b c) := by
  refine ⟨le_refl _, ⟨[(b, c.cursorY)], rfl, ?_⟩, rfl⟩
  intro p hp
  simp at hp
  subst hp
  exact h

theorem addVSpace_cstep (c : canvas) {px : ℤ} (h : 0 ≤ px) :
    CStep c (addVSpace c px) := by
  unfold addVSpace pushTrace
  refine ⟨by simp; omega, ⟨[(c.cursorY, c.cursorY + px)], by simp, ?_⟩, rfl⟩
  intro p hp
  simp at hp
  subst hp
  simp
  omega

theorem drawHRule_cstep (c : canvas) : CStep c (drawHRule c) := by
  unfold drawHRule pushTrace
  refine ⟨by simp; omega, ⟨[(c.cursorY, c.cursorY + 4 + 10)], by simp, ?_⟩, rfl⟩
  intro p hp
  simp at hp
  subst hp
  simp
  omega

theorem drawBlockquoteBar_cstep (c : canvas) (topY height : ℤ) :
    CStep c (drawBlockquoteBar c topY height) := by
  unfold drawBlockquoteBar pushTrace
  refine ⟨le_refl _, ⟨[(c.cursorY, c.cursorY)], by simp, ?_⟩, rfl⟩
  intro p hp
  simp at hp
  subst hp
  simp

theorem cstep_push {c c' : canvas} (h : c.cursorY ≤ c'.cursorY)
    (ht : c'.trace = c.trace) (hpt : c'.ptSize = c.ptSize) :
    CStep c (pushTrace c.cursorY c') := by
  refine ⟨?_, ⟨[(c.cursorY, c'.cursorY)], by simp [pushTrace, ht], ?_⟩, ?_⟩
  · simpa [pushTrace] using h
  · intro p hp
    simp at hp
    subst hp
    exact h
  · simpa [pushTrace] using hpt

theorem drawCodeBlock_cstep (c : canvas) (text : String) (left right : ℤ)
    {size : ℚ} (hs : 0 ≤ size) : CStep c (drawCodeBlock c text left right size) := by
  unfold drawCodeBlock
  apply cstep_push
  · have key : ∀ (n : ℕ) (g : ℤ), 0 ≤ g →
        c.cursorY ≤ c.cursorY + ((n : ℤ) * g + 2 * 10 + 6) + 6 := by
      intro n g hg
      have := mul_nonneg (Int.natCast_nonneg n) hg
      omega
    exact key _ _ (goInt_nonneg (by nlinarith))
  · rfl
  · rfl

/-- One `drawTokens` sub-step: cursor moves down, the trace and point
size are untouched, and the max-size accumulator stays non-negative. -/
structure DTStep (s s' : DTState) : Prop where
  mono : s.c.cursorY ≤ s'.c.cursorY
  trace : s'.c.trace = s.c.trace
  pt : s'.c.ptSize = s.c.ptSize
  ms : 0 ≤ s'.lineMaxSize

theorem DTStep.dttrans {a b c : DTState} (h₁ : DTStep a b) (h₂ : DTStep b c) :
    DTStep a c :=
  ⟨le_trans h₁.mono h₂.mono, h₂.trace.trans h₁.trace, h₂.pt.trans h₁.pt, h₂.ms⟩

theorem flushLine_dtstep (left : ℤ) (force : Bool) {s : DTState}
    (hpt : 0 ≤ s.c.ptSize) (hms : 0 ≤ s.lineMaxSize) :
    DTStep s (flushLine left force s) := by
  have hhs : 0 ≤ (if s.lineMaxSize = 0 then s.c.ptSize else s.lineMaxSize) := by
    split <;> assumption
  have h1 : 0 ≤ goInt ((if s.lineMaxSize = 0 then s.c.ptSize else s.lineMaxSize)
      * 1.5 + 0.5) := goInt_nonneg (by nlinarith)
  have h2 : 0 ≤ goInt (s.c.ptSize * 1.5 + 0.5) := goInt_nonneg (by nlinarith)
  unfold flushLine
  split
  · split
    · exact ⟨by dsimp only; split <;> omega, rfl, rfl, hms⟩
    · exact ⟨le_refl _, rfl, rfl, hms⟩
  · exact ⟨by dsimp only; split <;> omega, rfl, rfl, le_refl 0⟩

theorem dtSeg_dtstep (left : ℤ) (maxWidth : ℚ) (font : Option FontAndFace)
    (tok : textToken) {s : DTState} (seg : String)
    (hpt : 0 ≤ s.c.ptSize) (hms : 0 ≤ s.lineMaxSize) :
    DTStep s (dtSeg left maxWidth font tok s seg) := by
  unfold dtSeg
  split
  · exact ⟨le_refl _, rfl, rfl, hms⟩
  · dsimp only
    split
    · split
      · exact ⟨le_refl _, rfl, rfl, hms⟩
      · refine ⟨le_refl _, rfl, rfl, ?_⟩
        dsimp only
        split
        · linarith
        · exact hms
    · by_cases hc : s.lineWidth + measureWidth font tok.size seg > maxWidth ∧
        s.line.isEmpty = false
      · have hf := flushLine_dtstep left false hpt hms
        rw [if_pos hc]
        refine ⟨hf.mono, hf.trace, hf.pt, ?_⟩
        dsimp only
        split
        · linarith [hf.ms]
        · exact hf.ms
      · rw [if_neg hc]
        refine ⟨le_refl _, rfl, rfl, ?_⟩
        dsimp only
        split
        · linarith
        · exact hms

theorem foldl_dtSeg_dtstep (left : ℤ) (maxWidth : ℚ)
    (font : Option FontAndFace) (tok : textToken) (segs : List String)
    {s : DTState} (hpt : 0 ≤ s.c.ptSize) (hms : 0 ≤ s.lineMaxSize) :
    DTStep s (segs.foldl (dtSeg left maxWidth font tok) s) := by
  induction segs generalizing s with
  | nil => exact ⟨le_refl _, rfl, rfl, hms⟩
  | cons seg rest ih =>
    rw [List.foldl_cons]
    have h₁ := dtSeg_dtstep left maxWidth font tok seg hpt hms
    exact h₁.dttrans (ih (h₁.pt ▸ hpt) h₁.ms)

theorem dtTok_dtstep (left : ℤ) (maxWidth : ℚ) {s : DTState}
    (tok : textToken) (hpt : 0 ≤ s.c.ptSize) (hms : 0 ≤ s.lineMaxSize) :
    DTStep s (dtTok left maxWidth s tok) := by
  unfold dtTok
  split
  · exact flushLine_dtstep left true hpt hms
  · exact foldl_dtSeg_dtstep left maxWidth _ tok _ hpt hms

theorem foldl_dtTok_dtstep (left : ℤ) (maxWidth : ℚ)
    (tokens : List textToken) {s : DTState}
    (hpt : 0 ≤ s.c.ptSize) (hms : 0 ≤ s.lineMaxSize) :
    DTStep s (tokens.foldl (dtTok left maxWidth) s) := by
  induction tokens generalizing s with
  | nil => exact ⟨le_refl _, rfl, rfl, hms⟩
  | cons tok rest ih =>
    rw [List.foldl_cons]
    have h₁ := dtTok_dtstep left maxWidth tok hpt hms
    exact h₁.dttrans (ih (h₁.pt ▸ hpt) h₁.ms)

theorem drawTokens_cstep (c : canvas) (tokens : List textToken)
    (left right : ℤ) (hpt : 0 ≤ c.ptSize) :
    CStep c (drawTokens c tokens left right) := by
  unfold drawTokens
  split
  · exact CStep.crefl c
  · have h₁ := foldl_dtTok_dtstep left ((right - left : ℤ) : ℚ) tokens
      (s := ⟨[], 0, 0, c⟩) hpt (le_refl 0)
    have h₂ := flushLine_dtstep left false (h₁.pt ▸ hpt) h₁.ms
    have h := h₁.dttrans h₂
    apply cstep_push
    · exact h.mono
    · exact h.trace
    · exact h.pt

theorem rstep_mk {r r' : RState} (h : CStep r.c r'.c)
    (hb : r'.baseSize = r.baseSize) : RStep r r' :=
  ⟨h.mono, h.trace, h.pt, hb⟩

theorem rstep_set (r : RState) (c' : canvas) (h : CStep r.c c') :
    RStep r { r with c := c' } :=
  ⟨h.mono, h.trace, h.pt, rfl⟩

theorem traceR_rstep {r r₁ : RState} (h : RStep r r₁) :
    RStep r (traceR r.c.cursorY r₁) := by
  obtain ⟨Δ, hΔ, hok⟩ := h.trace
  refine ⟨by simpa [traceR, pushTrace] using h.mono,
    ⟨Δ ++ [(r.c.cursorY, r₁.c.cursorY)], ?_, ?_⟩,
    by simpa [traceR, pushTrace] using h.pt, by simpa [traceR] using h.base⟩
  · simp [traceR, pushTrace, hΔ]
  · refine traceOK_append hok ?_
    intro p hp
    simp at hp
    subst hp
    exact h.mono

theorem rstep_bump {r : RState} {d : ℤ} (hd : 0 ≤ d) :
    RStep r { r with c := { r.c with cursorY := r.c.cursorY + d } } :=
  ⟨by simp; omega, ⟨[], by simp, traceOK_nil⟩, rfl, rfl⟩

theorem pushListContext_rstep (r : RState) (isOrdered : Bool) (start : ℤ)
    (isTight : Bool) (hb : 0 ≤ r.baseSize) :
    RStep r (pushListContext r isOrdered start isTight) := by
  unfold pushListContext
  exact traceR_rstep
    (rstep_mk (addVSpace_cstep r.c (goInt_nonneg (by nlinarith))) rfl)

theorem popListContext_rstep (r : RState) (hb : 0 ≤ r.baseSize) :
    RStep r (popListContext r) := by
  unfold popListContext
  split
  · exact RStep.rrefl r
  · exact traceR_rstep
      (rstep_mk (addVSpace_cstep r.c (goInt_nonneg (by nlinarith))) rfl)

theorem beginListItem_rstep (r : RState) : RStep r (beginListItem r) := by
  unfold beginListItem
  split
  · exact RStep.rrefl r
  · exact traceR_rstep (rstep_mk (CStep.crefl r.c) rfl)

theorem drawListMarker_rstep (r : RState) (marker : String) (ctx : listContext)
    (hpt : 0 ≤ r.c.ptSize) : RStep r (drawListMarker r marker ctx) := by
  unfold drawListMarker
  have h := drawTokens_cstep r.c
    [{ text := marker, font := r.c.fonts.Regular, size := r.baseSize,
       color := r.c.th.FG }] ctx.indent (ctx.indent + ctx.markerArea) hpt
  obtain ⟨Δ, hΔ, hok⟩ := h.trace
  refine ⟨by simp [pushTrace], ⟨Δ ++ [(r.c.cursorY, r.c.cursorY)], ?_, ?_⟩,
    by simp [pushTrace, h.pt], rfl⟩
  · simp [pushTrace, hΔ]
  · refine traceOK_append hok ?_
    intro p hp
    simp at hp
    subst hp
    exact le_refl _

theorem ensureListMarker_rstep (r : RState) (hpt : 0 ≤ r.c.ptSize) :
    RStep r (ensureListMarker r) := by
  unfold ensureListMarker
  split
  · exact RStep.rrefl r
  · rename_i ctx _
    split
    · exact RStep.rrefl r
    · rename_i item _
      split
      · exact RStep.rrefl r
      · have h := drawListMarker_rstep r item.marker ctx hpt
        exact ⟨h.mono, h.trace, h.pt, h.base⟩

theorem endListItem_rstep (r : RState) (hpt : 0 ≤ r.c.ptSize)
    (hb : 0 ≤ r.baseSize) : RStep r (endListItem r) := by
  unfold endListItem
  split
  · exact RStep.rrefl r
  · apply traceR_rstep
    have h₁ : RStep r (match r.listStack.getLast? with
        | none => r
        | some ctx =>
          match r.itemStack.getLast? with
          | none => r
          | some item =>
            if item.drawn then r
            else
              let r' := drawListMarker r item.marker ctx
              { r' with c := { r'.c with
                  cursorY := r'.c.cursorY + goInt (r.baseSize * 1.2) } }) := by
      split
      · exact RStep.rrefl r
      · rename_i ctx _
        split
        · exact RStep.rrefl r
        · rename_i item _
          split
          · exact RStep.rrefl r
          · exact (drawListMarker_rstep r item.marker ctx hpt).rtrans
              (rstep_bump (goInt_nonneg (by nlinarith)))
    have hsp : (0 : ℤ) ≤ (match r.listStack.getLast? with
        | some ctx =>
          if ctx.tight then goInt (r.baseSize * 0.45)
          else goInt (r.baseSize * 0.75)
        | none => goInt (r.baseSize * 0.75)) := by
      split
      · split <;> exact goInt_nonneg (by nlinarith)
      · exact goInt_nonneg (by nlinarith)
    exact h₁.rtrans (rstep_mk (addVSpace_cstep _ hsp) rfl)

theorem renderUnsupportedNode_rstep (r : RState) (kind : String) (left : ℤ)
    (hpt : 0 ≤ r.c.ptSize) (hb : 0 ≤ r.baseSize) :
    RStep r (renderUnsupportedNode r kind left) := by
  unfold renderUnsupportedNode
  refine traceR_rstep (rstep_set r _ ?_)
  exact CStep.ctrans (drawTokens_cstep _ _ _ _ hpt)
    (addVSpace_cstep _ (goInt_nonneg hb))

theorem drawTableLine_rstep (r : RState) (cells : List String)
    (widths : List ℤ) (left : ℤ) (font : Option FontAndFace) (bold : Bool)
    (hpt : 0 ≤ r.c.ptSize) : RStep r (drawTableLine r cells widths left font bold) := by
  unfold drawTableLine
  refine traceR_rstep (rstep_set r _ ?_)
  exact drawTokens_cstep _ _ _ _ hpt

theorem drawTableSeparator_rstep (r : RState) (widths : List ℤ) (left : ℤ)
    (font : Option FontAndFace) (hpt : 0 ≤ r.c.ptSize) :
    RStep r (drawTableSeparator r widths left font) := by
  unfold drawTableSeparator
  refine traceR_rstep (rstep_set r _ ?_)
  exact drawTokens_cstep _ _ _ _ hpt

theorem foldl_drawTableLine_rstep (rows : List (List String))
    (widths : List ℤ) (left : ℤ) (font : Option FontAndFace) {r : RState}
    (hpt : 0 ≤ r.c.ptSize) :
    RStep r (rows.foldl (fun st row => drawTableLine st row widths left font false) r) := by
  induction rows generalizing r with
  | nil => exact RStep.rrefl r
  | cons row rest ih =>
    rw [List.foldl_cons]
    have h₁ := drawTableLine_rstep r row widths left font false hpt
    exact h₁.rtrans (ih (h₁.pt ▸ hpt))

theorem ensureAndLeft_rstep (r : RState) (hpt : 0 ≤ r.c.ptSize) :
    RStep r (ensureAndLeft r).1 := by
  unfold ensureAndLeft
  split
  · exact ensureListMarker_rstep r hpt
  · exact RStep.rrefl r

theorem renderTable_rstep (r : RState) (children : List MdNode)
    (hpt : 0 ≤ r.c.ptSize) (hb : 0 ≤ r.baseSize) :
    RStep r (renderTable r children) := by
  unfold renderTable
  have h₁ := ensureAndLeft_rstep r hpt
  dsimp only
  split
  · exact h₁
  · apply traceR_rstep
    set A := (ensureAndLeft r).1 with hA
    set left := (ensureAndLeft r).2 with hleft
    set header := (extractTableRows A children).1 with hheader
    set rows := (extractTableRows A children).2 with hrows
    set widths := (List.range (rows.foldl (fun m row => max m row.length)
      header.length)).map (tableColWidth header rows) with hwidths
    set mono := if A.c.fonts.Mono.isNone then A.c.fonts.Regular
      else A.c.fonts.Mono with hmono
    have hptA : 0 ≤ A.c.ptSize := h₁.pt ▸ hpt
    have h₂ : RStep A { A with c := addVSpace A.c (goInt (r.baseSize * 0.6)) } :=
      rstep_mk (addVSpace_cstep A.c (goInt_nonneg (by nlinarith))) rfl
    set B : RState := { A with c := addVSpace A.c (goInt (r.baseSize * 0.6)) } with hB
    have hptB : 0 ≤ B.c.ptSize := h₂.pt ▸ hptA
    have h₃ : RStep B (if header.isEmpty then B
        else drawTableSeparator (drawTableLine B header widths left mono true)
          widths left mono) := by
      split
      · exact RStep.rrefl B
      · have ha := drawTableLine_rstep B header widths left mono true hptB
        exact ha.rtrans (drawTableSeparator_rstep _ widths left mono (ha.pt ▸ hptB))
    have hAC : RStep r (if header.isEmpty then B
        else drawTableSeparator (drawTableLine B header widths left mono true)
          widths left mono) := (h₁.rtrans h₂).rtrans h₃
    have hptC : 0 ≤ (if header.isEmpty then B
        else drawTableSeparator (drawTableLine B header widths left mono true)
          widths left mono).c.ptSize := hAC.pt ▸ hpt
    exact hAC.rtrans ((foldl_drawTableLine_rstep rows widths left mono hptC).rtrans
      (rstep_set _ _ (addVSpace_cstep _ (goInt_nonneg (by nlinarith)))))

theorem markerInterleave_c (r : RState) :
    (markerInterleave r).1.c = r.c ∧ (markerInterleave r).1.baseSize = r.baseSize := by
  unfold markerInterleave
  split
  · exact ⟨rfl, rfl⟩
  · split
    · split
      · exact ⟨rfl, rfl⟩
      · exact ⟨rfl, rfl⟩
    · exact ⟨rfl, rfl⟩

theorem markerInterleave_rstep (r : RState) : RStep r (markerInterleave r).1 := by
  have h := markerInterleave_c r
  exact ⟨le_of_eq (by rw [h.1]), ⟨[], by rw [h.1]; simp, traceOK_nil⟩,
    by rw [h.1], h.2⟩

theorem enterNode_good (r : RState) (n : MdNode) (hpt : 0 ≤ r.c.ptSize)
    (hb : 0 ≤ r.baseSize) :
    RStep r (enterNode r n).1 ∧ (enterNode r n).2.2 = none := by
  cases n with
  | list o s t ch => exact ⟨pushListContext_rstep r o s t hb, rfl⟩
  | listItem ch => exact ⟨beginListItem_rstep r, rfl⟩
  | heading lvl ch =>
    refine ⟨?_, rfl⟩
    show RStep r (enterNode r (.heading lvl ch)).1
    unfold enterNode
    dsimp only
    have h₁ := markerInterleave_rstep r
    have hpt₁ : 0 ≤ (markerInterleave r).1.c.ptSize := h₁.pt ▸ hpt
    set A := (markerInterleave r).1 with hA
    have h₂ : RStep A { A with c := addVSpace A.c (goInt (r.baseSize * 0.6)) } :=
      rstep_set A _ (addVSpace_cstep A.c (goInt_nonneg (by nlinarith)))
    set B : RState := { A with c := addVSpace A.c (goInt (r.baseSize * 0.6)) } with hB
    have hptB : 0 ≤ B.c.ptSize := h₂.pt ▸ hpt₁
    have h₃ := rstep_set B _ (drawTokens_cstep B.c
      ((markerInterleave r).2.1 ++
        collectInlineTokens A.c.fonts A.c.th A.c.fonts.Regular
          (headingSize r.baseSize lvl) A.c.th.FG false ch)
      (markerInterleave r).2.2 (B.c.w - B.c.margin) hptB)
    set C : RState := { B with c := (drawTokens B.c
      ((markerInterleave r).2.1 ++
        collectInlineTokens A.c.fonts A.c.th A.c.fonts.Regular
          (headingSize r.baseSize lvl) A.c.th.FG false ch)
      (markerInterleave r).2.2 (B.c.w - B.c.margin)) } with hC
    exact ((h₁.rtrans h₂).rtrans h₃).rtrans
      (rstep_set C _ (addVSpace_cstep C.c (goInt_nonneg (by nlinarith))))
  | paragraph ch =>
    refine ⟨?_, ?_⟩
    · show RStep r (enterNode r (.paragraph ch)).1
      unfold enterNode
      dsimp only
      have h₁ := markerInterleave_rstep r
      have hpt₁ : 0 ≤ (markerInterleave r).1.c.ptSize := h₁.pt ▸ hpt
      set A := (markerInterleave r).1 with hA
      split
      · exact h₁
      · have h₂ := rstep_set A _ (drawTokens_cstep A.c
          ((markerInterleave r).2.1 ++
            collectInlineTokens A.c.fonts A.c.th A.c.fonts.Regular r.baseSize
              A.c.th.FG false ch)
          (markerInterleave r).2.2 (A.c.w - A.c.margin) hpt₁)
        set B : RState := { A with c := (drawTokens A.c
          ((markerInterleave r).2.1 ++
            collectInlineTokens A.c.fonts A.c.th A.c.fonts.Regular r.baseSize
              A.c.th.FG false ch)
          (markerInterleave r).2.2 (A.c.w - A.c.margin)) } with hB
        refine (h₁.rtrans h₂).rtrans (rstep_set B _ (addVSpace_cstep B.c ?_))
        split
        · exact goInt_nonneg (by nlinarith)
        · exact goInt_nonneg (by nlinarith)
    · show (enterNode r (.paragraph ch)).2.2 = none
      unfold enterNode
      dsimp only
      split <;> rfl
  | codeBlock txt =>
    refine ⟨?_, rfl⟩
    show RStep r (enterNode r (.codeBlock txt)).1
    unfold enterNode
    dsimp only
    have h₁ := ensureAndLeft_rstep r hpt
    have hpt₁ : 0 ≤ (ensureAndLeft r).1.c.ptSize := h₁.pt ▸ hpt
    set A := (ensureAndLeft r).1 with hA
    have h₂ : RStep A { A with c := addVSpace A.c 4 } :=
      rstep_set A _ (addVSpace_cstep A.c (by omega))
    set B : RState := { A with c := addVSpace A.c 4 } with hB
    exact (h₁.rtrans h₂).rtrans (rstep_set B _ (drawCodeBlock_cstep B.c txt
      (ensureAndLeft r).2 (B.c.w - B.c.margin) (by nlinarith)))
  | blockquote ch =>
    refine ⟨?_, ?_⟩
    · show RStep r (enterNode r (.blockquote ch)).1
      unfold enterNode
      dsimp only
      have h₁ := ensureAndLeft_rstep r hpt
      have hpt₁ : 0 ≤ (ensureAndLeft r).1.c.ptSize := h₁.pt ▸ hpt
      set A := (ensureAndLeft r).1 with hA
      split
      · exact h₁
      · have h₂ : RStep A { A with c := addVSpace A.c 2 } :=
          rstep_set A _ (addVSpace_cstep A.c (by omega))
        set B : RState := { A with c := addVSpace A.c 2 } with hB
        have hptB : 0 ≤ B.c.ptSize := h₂.pt ▸ hpt₁
        have h₃ := rstep_set B _ (drawTokens_cstep B.c
          (collectInlineTokens A.c.fonts A.c.th A.c.fonts.Regular
            (r.baseSize * 1.0) A.c.th.FG false ch)
          ((ensureAndLeft r).2 + 10) (B.c.w - B.c.margin) hptB)
        set C : RState := { B with c := (drawTokens B.c
          (collectInlineTokens A.c.fonts A.c.th A.c.fonts.Regular
            (r.baseSize * 1.0) A.c.th.FG false ch)
          ((ensureAndLeft r).2 + 10) (B.c.w - B.c.margin)) } with hC
        have h₄ : RStep C { C with c := addVSpace C.c 6 } :=
          rstep_set C _ (addVSpace_cstep C.c (by omega))
        set D : RState := { C with c := addVSpace C.c 6 } with hD
        exact (((h₁.rtrans h₂).rtrans h₃).rtrans h₄).rtrans
          (rstep_set D _ (drawBlockquoteBar_cstep D.c (r.c.cursorY + 2)
            (D.c.cursorY - r.c.cursorY - 2)))
    · show (enterNode r (.blockquote ch)).2.2 = none
      unfold enterNode
      dsimp only
      split <;> rfl
  | thematicBreak => exact ⟨rstep_set r _ (drawHRule_cstep r.c), rfl⟩
  | text s soft hard => exact ⟨RStep.rrefl r, rfl⟩
  | table ch => exact ⟨renderTable_rstep r ch hpt hb, rfl⟩
  | document ch => exact ⟨RStep.rrefl r, rfl⟩
  | emphasis lvl ch => exact ⟨RStep.rrefl r, rfl⟩
  | link ch => exact ⟨RStep.rrefl r, rfl⟩
  | codeSpan txt => exact ⟨RStep.rrefl r, rfl⟩
  | tableHeader ch =>
    exact ⟨(ensureAndLeft_rstep r hpt).rtrans (renderUnsupportedNode_rstep _ _ _
      ((ensureAndLeft_rstep r hpt).pt ▸ hpt)
      ((ensureAndLeft_rstep r hpt).base ▸ hb)), rfl⟩
  | tableRow ch =>
    exact ⟨(ensureAndLeft_rstep r hpt).rtrans (renderUnsupportedNode_rstep _ _ _
      ((ensureAndLeft_rstep r hpt).pt ▸ hpt)
      ((ensureAndLeft_rstep r hpt).base ▸ hb)), rfl⟩
  | tableCell ch =>
    exact ⟨(ensureAndLeft_rstep r hpt).rtrans (renderUnsupportedNode_rstep _ _ _
      ((ensureAndLeft_rstep r hpt).pt ▸ hpt)
      ((ensureAndLeft_rstep r hpt).base ▸ hb)), rfl⟩
  | unknown kind isInline ch =>
    refine ⟨?_, ?_⟩
    · show RStep r (enterNode r (.unknown kind isInline ch)).1
      unfold enterNode
      dsimp only
      split
      · exact RStep.rrefl r
      · exact (ensureAndLeft_rstep r hpt).rtrans (renderUnsupportedNode_rstep _ _ _
          ((ensureAndLeft_rstep r hpt).pt ▸ hpt)
          ((ensureAndLeft_rstep r hpt).base ▸ hb))
    · show (enterNode r (.unknown kind isInline ch)).2.2 = none
      unfold enterNode
      dsimp only
      split <;> rfl

theorem exitNode_good (r : RState) (n : MdNode) (hpt : 0 ≤ r.c.ptSize)
    (hb : 0 ≤ r.baseSize) :
    RStep r (exitNode r n).1 ∧ (exitNode r n).2.2 = none := by
  cases n with
  | list o s t ch => exact ⟨popListContext_rstep r hb, rfl⟩
  | listItem ch => exact ⟨endListItem_rstep r hpt hb, rfl⟩
  | text s soft hard => exact ⟨RStep.rrefl r, rfl⟩
  | emphasis lvl ch => exact ⟨RStep.rrefl r, rfl⟩
  | link ch => exact ⟨RStep.rrefl r, rfl⟩
  | codeSpan txt => exact ⟨RStep.rrefl r, rfl⟩
  | paragraph ch => exact ⟨RStep.rrefl r, rfl⟩
  | heading lvl ch => exact ⟨RStep.rrefl r, rfl⟩
  | codeBlock txt => exact ⟨RStep.rrefl r, rfl⟩
  | blockquote ch => exact ⟨RStep.rrefl r, rfl⟩
  | thematicBreak => exact ⟨RStep.rrefl r, rfl⟩
  | table ch => exact ⟨RStep.rrefl r, rfl⟩
  | tableHeader ch => exact ⟨RStep.rrefl r, rfl⟩
  | tableRow ch => exact ⟨RStep.rrefl r, rfl⟩
  | tableCell ch => exact ⟨RStep.rrefl r, rfl⟩
  | document ch => exact ⟨RStep.rrefl r, rfl⟩
  | unknown kind isInline ch => exact ⟨RStep.rrefl r, rfl⟩

/-- The walk never produces an error, and takes every renderer state to a
state with a larger-or-equal cursor while appending only well-ordered
trace entries. -/
theorem walk_good :
    (∀ (r : RState) (n : MdNode), 0 ≤ r.c.ptSize → 0 ≤ r.baseSize →
      RStep r (walkNode r n).1 ∧ (walkNode r n).2.2 = none) ∧
    (∀ (r : RState) (l : List MdNode), 0 ≤ r.c.ptSize → 0 ≤ r.baseSize →
      RStep r (walkList r l).1 ∧ (walkList r l).2.2 = none) := by
  refine walkNode.mutual_induct
    (fun r n => 0 ≤ r.c.ptSize → 0 ≤ r.baseSize →
      RStep r (walkNode r n).1 ∧ (walkNode r n).2.2 = none)
    (fun r l => 0 ≤ r.c.ptSize → 0 ≤ r.baseSize →
      RStep r (walkList r l).1 ∧ (walkList r l).2.2 = none)
    ?_ ?_ ?_ ?_ ?_ ?_ ?_ ?_ ?_
  · intro r n r₂ ws₂ e henter hpt hb
    exact absurd (enterNode_good r n hpt hb).2 (by rw [henter]; simp)
  · intro r n r₂ henter hpt hb
    have hg := enterNode_good r n hpt hb
    have hw : walkNode r n = (r₂, .walkStop, none) := by
      simp [walkNode, henter]
    have h1 : (enterNode r n).1 = r₂ := by rw [henter]
    rw [hw]
    exact ⟨h1 ▸ hg.1, rfl⟩
  · intro r n r₂ ws₂ henter hws r₃ ws₃ e hif ih hpt hb
    have hg := enterNode_good r n hpt hb
    have h1 : (enterNode r n).1 = r₂ := by rw [henter]
    have hpt₂ : 0 ≤ r₂.c.ptSize := by rw [← h1, hg.1.pt]; exact hpt
    have hb₂ : 0 ≤ r₂.baseSize := by rw [← h1, hg.1.base]; exact hb
    by_cases hskip : ws₂ = .walkSkipChildren
    · rw [dif_pos hskip] at hif
      simp at hif
    · rw [dif_neg hskip] at hif
      exact absurd (ih hpt₂ hb₂).2 (by rw [hif]; simp)
  · intro r n r₂ ws₂ henter hws r₃ hif ih hpt hb
    have hg := enterNode_good r n hpt hb
    have h1 : (enterNode r n).1 = r₂ := by rw [henter]
    have hr₂ : RStep r r₂ := h1 ▸ hg.1
    have hpt₂ : 0 ≤ r₂.c.ptSize := hr₂.pt ▸ hpt
    have hb₂ : 0 ≤ r₂.baseSize := hr₂.base ▸ hb
    have hw : walkNode r n = (r₃, .walkStop, none) := by
      have hif' : (if ws₂ = WalkStatus.walkSkipChildren then
          (r₂, WalkStatus.walkContinue, (none : Option String))
          else walkList r₂ n.childrenOf) = (r₃, .walkStop, none) := by
        simpa using hif
      simp [walkNode, henter, hws, hif']
    rw [hw]
    refine ⟨?_, rfl⟩
    by_cases hskip : ws₂ = .walkSkipChildren
    · rw [dif_pos hskip] at hif
      simp at hif
    · rw [dif_neg hskip] at hif
      have := (ih hpt₂ hb₂).1
      rw [hif] at this
      exact hr₂.rtrans this
  · intro r n r₂ ws₂ henter hws r₃ ws₃ hif hws₃ ih hpt hb
    have hg := enterNode_good r n hpt hb
    have h1 : (enterNode r n).1 = r₂ := by rw [henter]
    have hr₂ : RStep r r₂ := h1 ▸ hg.1
    have hpt₂ : 0 ≤ r₂.c.ptSize := hr₂.pt ▸ hpt
    have hb₂ : 0 ≤ r₂.baseSize := hr₂.base ▸ hb
    have hw : walkNode r n = exitNode r₃ n := by
      have hif' : (if ws₂ = WalkStatus.walkSkipChildren then
          (r₂, WalkStatus.walkContinue, (none : Option String))
          else walkList r₂ n.childrenOf) = (r₃, ws₃, none) := by
        simpa using hif
      simp [walkNode, henter, hws, hif', hws₃]
    have hr₃ : RStep r r₃ := by
      by_cases hskip : ws₂ = .walkSkipChildren
      · rw [dif_pos hskip] at hif
        have : r₂ = r₃ := by
          have := congrArg (fun p => p.1) hif
          simpa using this
        exact this ▸ hr₂
      · rw [dif_neg hskip] at hif
        have := (ih hpt₂ hb₂).1
        rw [hif] at this
        exact hr₂.rtrans this
    have hpt₃ : 0 ≤ r₃.c.ptSize := hr₃.pt ▸ hpt
    have hb₃ : 0 ≤ r₃.baseSize := hr₃.base ▸ hb
    have hexit := exitNode_good r₃ n hpt₃ hb₃
    rw [hw]
    exact ⟨hr₃.rtrans hexit.1, hexit.2⟩
  · intro r hpt hb
    have hw : walkList r [] = (r, .walkContinue, none) := by
      simp only [walkList]
    rw [hw]
    exact ⟨RStep.rrefl r, rfl⟩
  · intro r child rest r₂ ws₂ e hchild ih hpt hb
    exact absurd (ih hpt hb).2 (by rw [hchild]; simp)
  · intro r child rest r₂ hchild ih hpt hb
    have hw : walkList r (child :: rest) = (r₂, .walkStop, none) := by
      simp [walkList, hchild]
    have h1 := (ih hpt hb).1
    rw [hchild] at h1
    rw [hw]
    exact ⟨h1, rfl⟩
  · intro r child rest r₂ ws₂ hchild hws ih₁ ih₂ hpt hb
    have h1 := (ih₁ hpt hb).1
    rw [hchild] at h1
    have hpt₂ : 0 ≤ r₂.c.ptSize := h1.pt ▸ hpt
    have hb₂ : 0 ≤ r₂.baseSize := h1.base ▸ hb
    have hw : walkList r (child :: rest) = walkList r₂ rest := by
      simp only [walkList, hchild, if_neg hws]
    rw [hw]
    have h2 := ih₂ hpt₂ hb₂
    exact ⟨h1.rtrans h2.1, h2.2⟩

/-! ## What `drawTokens` paints for a single text token -/

/-- The style every word of a single-token line inherits. -/
def WordP (tok : textToken) (font : Option FontAndFace) (w : styledWord) : Prop :=
  w.size = tok.size ∧ w.color = tok.color ∧ w.underline = tok.underline ∧
  w.font = font

def wordsText (ws : List styledWord) : String :=
  concatAll (ws.map (fun w => w.text))

def lineOp (t : List styledWord × ℤ × ℤ) : DrawOp :=
  DrawOp.textLine t.1 t.2.1 t.2.2

theorem wordsText_append (a b : List styledWord) :
    wordsText (a ++ b) = wordsText a ++ wordsText b := by
  unfold wordsText
  rw [List.map_append, concatAll_append]

theorem wordsText_single (w : styledWord) : wordsText [w] = w.text := by
  unfold wordsText
  rw [List.map_cons, List.map_nil, concatAll_singleton]

theorem dtSeg_spec (left : ℤ) (maxWidth : ℚ) (font : Option FontAndFace)
    (tok : textToken) (segs : List String) (s : DTState)
    (hsegs : ∀ seg ∈ segs, seg ≠ "") (hline : s.line ≠ [])
    (hwp : ∀ w ∈ s.line, WordP tok font w) :
    ∃ Δ : List (List styledWord × ℤ × ℤ),
      (segs.foldl (dtSeg left maxWidth font tok) s).c.ops =
        s.c.ops ++ Δ.map lineOp ∧
      (∀ t ∈ Δ, (∀ w ∈ t.1, WordP tok font w) ∧ t.1 ≠ []) ∧
      (segs.foldl (dtSeg left maxWidth font tok) s).line ≠ [] ∧
      (∀ w ∈ (segs.foldl (dtSeg left maxWidth font tok) s).line, WordP tok font w) ∧
      concatAll (Δ.map (fun t => wordsText t.1)) ++
        wordsText (segs.foldl (dtSeg left maxWidth font tok) s).line =
        wordsText s.line ++ concatAll segs := by
  induction segs generalizing s with
  | nil =>
    refine ⟨[], by simp, by simp, hline, hwp, ?_⟩
    simp [concatAll_nil, concatAll_cons, string_append_empty]
  | cons seg rest ih =>
    rw [List.foldl_cons]
    have hsegne : seg ≠ "" := hsegs seg (by simp)
    have hrest : ∀ x ∈ rest, x ≠ "" := fun x hx => hsegs x (by simp [hx])
    cases hd : seg.data with
    | nil =>
      exact absurd (by cases seg; cases hd; rfl) hsegne
    | cons ch chrest =>
      have hword : WordP tok font
          ⟨seg, font, tok.size, tok.color, tok.underline⟩ := ⟨rfl, rfl, rfl, rfl⟩
      by_cases hsp : goIsSpace ch
      · -- whitespace segment on a non-empty line: appended to the line
        have hstep : dtSeg left maxWidth font tok s seg =
            { s with
              line := s.line ++ [⟨seg, font, tok.size, tok.color, tok.underline⟩]
              lineMaxSize := if tok.size > s.lineMaxSize then tok.size
                else s.lineMaxSize
              lineWidth := s.lineWidth + measureWidth font tok.size seg } := by
          unfold dtSeg
          rw [hd]
          dsimp only
          rw [if_pos hsp, if_neg (by simpa [List.isEmpty_iff] using hline)]
        rw [hstep]
        have hwp' : ∀ w ∈ s.line ++
            [(⟨seg, font, tok.size, tok.color, tok.underline⟩ : styledWord)],
            WordP tok font w := by
          intro w hw'
          rcases List.mem_append.mp hw' with h | h
          · exact hwp w h
          · simp at h
            subst h
            exact hword
        obtain ⟨Δ, hops, hΔ, hl, hw, hc⟩ := ih
          { s with
            line := s.line ++ [⟨seg, font, tok.size, tok.color, tok.underline⟩]
            lineMaxSize := if tok.size > s.lineMaxSize then tok.size
              else s.lineMaxSize
            lineWidth := s.lineWidth + measureWidth font tok.size seg }
          hrest (by simp) hwp'
        refine ⟨Δ, hops, hΔ, hl, hw, ?_⟩
        rw [hc]
        show wordsText (s.line ++ [⟨seg, font, tok.size, tok.color, tok.underline⟩])
          ++ concatAll rest = wordsText s.line ++ (seg ++ concatAll rest)
        rw [wordsText_append, wordsText_single, string_append_assoc]
      · -- non-whitespace segment: may flush, then starts or extends a line
        have hsp' : goIsSpace ch = false := by simpa using hsp
        by_cases hovf : s.lineWidth + measureWidth font tok.size seg > maxWidth ∧
            s.line.isEmpty = false
        · -- overflow: flush the current line, word opens the next line
          have hfl : flushLine left false s =
              { line := []
                lineWidth := 0
                lineMaxSize := 0
                c := { s.c with
                  ops := s.c.ops ++ [.textLine s.line left
                    (s.c.cursorY + goInt (if s.lineMaxSize = 0 then s.c.ptSize
                      else s.lineMaxSize))]
                  cursorY := s.c.cursorY +
                    (if goInt ((if s.lineMaxSize = 0 then s.c.ptSize
                        else s.lineMaxSize) * 1.5 + 0.5) ≤ 0 then
                      goInt (s.c.ptSize * 1.5 + 0.5)
                    else goInt ((if s.lineMaxSize = 0 then s.c.ptSize
                        else s.lineMaxSize) * 1.5 + 0.5)) } } := by
            unfold flushLine
            rw [if_neg (by simpa [List.isEmpty_iff] using hline)]
          have hstep : dtSeg left maxWidth font tok s seg =
              { line := [⟨seg, font, tok.size, tok.color, tok.underline⟩]
                lineWidth := 0 + measureWidth font tok.size seg
                lineMaxSize := if tok.size > (0 : ℚ) then tok.size else 0
                c := (flushLine left false s).c } := by
            unfold dtSeg
            rw [hd]
            dsimp only
            rw [if_neg (by simp [hsp']), if_pos hovf, hfl]
            rfl
          rw [hstep]
          have hwp' : ∀ w ∈
              [(⟨seg, font, tok.size, tok.color, tok.underline⟩ : styledWord)],
              WordP tok font w := by
            intro w hw'
            simp at hw'
            subst hw'
            exact hword
          obtain ⟨Δ, hops, hΔ, hl, hw, hc⟩ := ih
            { line := [⟨seg, font, tok.size, tok.color, tok.underline⟩]
              lineWidth := 0 + measureWidth font tok.size seg
              lineMaxSize := if tok.size > (0 : ℚ) then tok.size else 0
              c := (flushLine left false s).c }
            hrest (by simp) hwp'
          refine ⟨(s.line, left,
            s.c.cursorY + goInt (if s.lineMaxSize = 0 then s.c.ptSize
              else s.lineMaxSize)) :: Δ, ?_, ?_, hl, hw, ?_⟩
          · rw [hops, hfl]
            simp [lineOp, List.append_assoc]
          · intro t ht
            rcases List.mem_cons.mp ht with h | h
            · subst h
              exact ⟨hwp, hline⟩
            · exact hΔ t h
          · rw [List.map_cons, concatAll_cons, string_append_assoc, hc,
              wordsText_single]
            simp [concatAll_cons]
        · -- fits: the word is appended to the current line
          have hstep : dtSeg left maxWidth font tok s seg =
              { s with
                line := s.line ++ [⟨seg, font, tok.size, tok.color, tok.underline⟩]
                lineMaxSize := if tok.size > s.lineMaxSize then tok.size
                  else s.lineMaxSize
                lineWidth := s.lineWidth + measureWidth font tok.size seg } := by
            unfold dtSeg
            rw [hd]
            dsimp only
            rw [if_neg (by simp [hsp']), if_neg hovf]
          rw [hstep]
          have hwp' : ∀ w ∈ s.line ++
              [(⟨seg, font, tok.size, tok.color, tok.underline⟩ : styledWord)],
              WordP tok font w := by
            intro w hw'
            rcases List.mem_append.mp hw' with h | h
            · exact hwp w h
            · simp at h
              subst h
              exact hword
          obtain ⟨Δ, hops, hΔ, hl, hw, hc⟩ := ih
            { s with
              line := s.line ++ [⟨seg, font, tok.size, tok.color, tok.underline⟩]
              lineMaxSize := if tok.size > s.lineMaxSize then tok.size
                else s.lineMaxSize
              lineWidth := s.lineWidth + measureWidth font tok.size seg }
            hrest (by simp) hwp'
          refine ⟨Δ, hops, hΔ, hl, hw, ?_⟩
          rw [hc]
          show wordsText (s.line ++ [⟨seg, font, tok.size, tok.color, tok.underline⟩])
            ++ concatAll rest = wordsText s.line ++ (seg ++ concatAll rest)
          rw [wordsText_append, wordsText_single, string_append_assoc]
theorem dtSeg_first_step (left : ℤ) (maxWidth : ℚ) (font : Option FontAndFace)
    (tok : textToken) (c : canvas) (p : String) (pch : Char) (ptail : List Char)
    (hpd : p.data = pch :: ptail) (hns : goIsSpace pch = false) :
    dtSeg left maxWidth font tok ⟨[], 0, 0, c⟩ p =
      { line := [⟨p, font, tok.size, tok.color, tok.underline⟩]
        lineWidth := 0 + measureWidth font tok.size p
        lineMaxSize := if tok.size > (0 : ℚ) then tok.size else 0
        c := c } := by
  unfold dtSeg
  rw [hpd]
  dsimp only
  rw [if_neg (by simp [hns]), if_neg (by simp)]
  rfl

/-- Painting a single non-newline text token whose text starts with a
non-whitespace character draws one or more text lines, all of whose words
carry the token's style, and whose concatenated text is exactly the
token's text. -/
theorem drawTokens_single_token (c : canvas) (tok : textToken) (left right : ℤ)
    (hnl : tok.newline = false) (ch : Char) (chrest : List Char)
    (hd : tok.text.data = ch :: chrest) (hns : goIsSpace ch = false) :
    ∃ Δ : List (List styledWord × ℤ × ℤ),
      (drawTokens c [tok] left right).ops = c.ops ++ Δ.map lineOp ∧
      Δ ≠ [] ∧
      (∀ t ∈ Δ, (∀ w ∈ t.1, WordP tok
        (if tok.font.isNone then c.fonts.Regular else tok.font) w) ∧ t.1 ≠ []) ∧
      concatAll (Δ.map (fun t => wordsText t.1)) = tok.text := by
  obtain ⟨p, prest, hsplit, hps⟩ := by
    refine (splitTextPreserveSpaces_cons ch chrest tok.text hd) ▸
      splitTextAux_head_partIsSpace (goIsSpace ch) [ch] chrest ?_ (by simp)
    simp [partIsSpace]
  rw [hns] at hps
  have hpne : p.data ≠ [] := by
    refine mem_splitTextAux_ne_empty (goIsSpace ch) [ch] chrest (by simp) p ?_
    rw [← splitTextPreserveSpaces_cons ch chrest tok.text hd, hsplit]
    simp
  obtain ⟨pch, ptail, hpd⟩ : ∃ a l, p.data = a :: l := by
    cases hx : p.data with
    | nil => exact absurd hx hpne
    | cons a l => exact ⟨a, l, rfl⟩
  have hpns : goIsSpace pch = false := by
    have : partIsSpace p = goIsSpace pch := by
      unfold partIsSpace
      rw [hpd]
    rw [← this, hps]
  have hprestne : ∀ x ∈ prest, x ≠ "" := by
    intro x hx
    have : x.data ≠ [] := by
      refine mem_splitTextAux_ne_empty (goIsSpace ch) [ch] chrest (by simp) x ?_
      rw [← splitTextPreserveSpaces_cons ch chrest tok.text hd, hsplit]
      simp [hx]
    intro hcon
    rw [hcon] at this
    exact this rfl
  unfold drawTokens
  rw [if_neg (by simp)]
  dsimp only
  rw [List.foldl_cons, List.foldl_nil]
  unfold dtTok
  rw [if_neg (by simp [hnl]), hsplit, List.foldl_cons]
  rw [dtSeg_first_step left ((right - left : ℤ) : ℚ)
    (if tok.font.isNone then c.fonts.Regular else tok.font) tok c p pch ptail
    hpd hpns]
  obtain ⟨Δ, hops, hΔ, hl, hw, hc⟩ := dtSeg_spec left ((right - left : ℤ) : ℚ)
    (if tok.font.isNone then c.fonts.Regular else tok.font) tok prest
    { line := [⟨p, if tok.font.isNone then c.fonts.Regular else tok.font,
        tok.size, tok.color, tok.underline⟩]
      lineWidth := 0 + measureWidth (if tok.font.isNone then c.fonts.Regular
        else tok.font) tok.size p
      lineMaxSize := if tok.size > (0 : ℚ) then tok.size else 0
      c := c }
    hprestne (by simp) (by
      intro w hw'
      simp at hw'
      subst hw'
      exact ⟨rfl, rfl, rfl, rfl⟩)
  set sF := prest.foldl (dtSeg left ((right - left : ℤ) : ℚ)
    (if tok.font.isNone then c.fonts.Regular else tok.font) tok)
    { line := [⟨p, if tok.font.isNone then c.fonts.Regular else tok.font,
        tok.size, tok.color, tok.underline⟩]
      lineWidth := 0 + measureWidth (if tok.font.isNone then c.fonts.Regular
        else tok.font) tok.size p
      lineMaxSize := if tok.size > (0 : ℚ) then tok.size else 0
      c := c } with hsF
  have hflush : flushLine left false sF =
      { line := []
        lineWidth := 0
        lineMaxSize := 0
        c := { sF.c with
          ops := sF.c.ops ++ [.textLine sF.line left
            (sF.c.cursorY + goInt (if sF.lineMaxSize = 0 then sF.c.ptSize
              else sF.lineMaxSize))]
          cursorY := sF.c.cursorY +
            (if goInt ((if sF.lineMaxSize = 0 then sF.c.ptSize
                else sF.lineMaxSize) * 1.5 + 0.5) ≤ 0 then
              goInt (sF.c.ptSize * 1.5 + 0.5)
            else goInt ((if sF.lineMaxSize = 0 then sF.c.ptSize
                else sF.lineMaxSize) * 1.5 + 0.5)) } } := by
    unfold flushLine
    rw [if_neg (by simpa [List.isEmpty_iff] using hl)]
  refine ⟨Δ ++ [(sF.line, left,
    sF.c.cursorY + goInt (if sF.lineMaxSize = 0 then sF.c.ptSize
      else sF.lineMaxSize))], ?_, by simp, ?_, ?_⟩
  · show (pushTrace c.cursorY (flushLine left false sF).c).ops = _
    rw [hflush]
    show sF.c.ops ++ _ = _
    rw [hops]
    simp [lineOp, List.append_assoc]
  · intro t ht
    rcases List.mem_append.mp ht with h | h
    · exact hΔ t h
    · simp at h
      subst h
      exact ⟨hw, hl⟩
  · rw [List.map_append, concatAll_append, List.map_cons, List.map_nil,
      concatAll_singleton, hc]
    have hcsplit : concatAll (splitTextPreserveSpaces tok.text) = tok.text :=
      concatAll_splitTextPreserveSpaces tok.text
    rw [hsplit] at hcsplit
    rw [← hcsplit, concatAll_cons]
    congr 1
    rw [wordsText_single]

theorem dtSeg_nofits (left : ℤ) (maxWidth : ℚ) (font : Option FontAndFace)
    (tok : textToken) (segs : List String) :
    ∀ s : DTState,
    (∀ seg ∈ segs, 0 ≤ measureWidth font tok.size seg) →
    s.lineWidth + (segs.map (measureWidth font tok.size)).sum ≤ maxWidth →
    s.line ≠ [] →
    (segs.foldl (dtSeg left maxWidth font tok) s).c = s.c ∧
    (segs.foldl (dtSeg left maxWidth font tok) s).line ≠ [] := by
  induction segs with
  | nil => exact fun s _ _ h => ⟨rfl, h⟩
  | cons seg rest ih =>
    intro s hnn hfits hline
    rw [List.foldl_cons]
    have hw0 : 0 ≤ measureWidth font tok.size seg := hnn seg (by simp)
    have hrest0 : 0 ≤ (rest.map (measureWidth font tok.size)).sum :=
      List.sum_nonneg (by
        intro x hx
        simp at hx
        obtain ⟨y, hy, hxy⟩ := hx
        exact hxy ▸ hnn y (by simp [hy]))
    have hsum : (List.map (measureWidth font tok.size) (seg :: rest)).sum =
        measureWidth font tok.size seg +
          (rest.map (measureWidth font tok.size)).sum := by
      simp
    rw [hsum] at hfits
    cases hd : seg.data with
    | nil =>
      have hstep : dtSeg left maxWidth font tok s seg = s := by
        unfold dtSeg
        rw [hd]
      rw [hstep]
      exact ih s (fun x hx => hnn x (by simp [hx])) (by linarith) hline
    | cons ch chrest =>
      have happ : dtSeg left maxWidth font tok s seg =
          { s with
            line := s.line ++ [⟨seg, font, tok.size, tok.color, tok.underline⟩]
            lineMaxSize := if tok.size > s.lineMaxSize then tok.size
              else s.lineMaxSize
            lineWidth := s.lineWidth + measureWidth font tok.size seg } := by
        unfold dtSeg
        rw [hd]
        dsimp only
        by_cases hsp : goIsSpace ch
        · rw [if_pos hsp, if_neg (by simpa [List.isEmpty_iff] using hline)]
        · rw [if_neg hsp]
          rw [if_neg (by
            intro hcon
            have := hcon.1
            linarith)]
      rw [happ]
      have := ih
        { s with
          line := s.line ++ [⟨seg, font, tok.size, tok.color, tok.underline⟩]
          lineMaxSize := if tok.size > s.lineMaxSize then tok.size
            else s.lineMaxSize
          lineWidth := s.lineWidth + measureWidth font tok.size seg }
        (fun x hx => hnn x (by simp [hx])) (by dsimp only; linarith) (by simp)
      exact this

/-- When every run of the token fits cumulatively inside `maxWidth`, the
single token is painted as exactly one text line. -/
theorem drawTokens_single_token_fits (c : canvas) (tok : textToken)
    (left right : ℤ) (hnl : tok.newline = false) (ch : Char) (chrest : List Char)
    (hd : tok.text.data = ch :: chrest) (hns : goIsSpace ch = false)
    (hnn : ∀ seg ∈ splitTextPreserveSpaces tok.text,
      0 ≤ measureWidth (if tok.font.isNone then c.fonts.Regular else tok.font)
        tok.size seg)
    (hfits : ((splitTextPreserveSpaces tok.text).map
      (measureWidth (if tok.font.isNone then c.fonts.Regular else tok.font)
        tok.size)).sum ≤ ((right - left : ℤ) : ℚ)) :
    ∃ ws bl, (drawTokens c [tok] left right).ops =
      c.ops ++ [DrawOp.textLine ws left bl] := by
  obtain ⟨p, prest, hsplit, hps⟩ := by
    refine (splitTextPreserveSpaces_cons ch chrest tok.text hd) ▸
      splitTextAux_head_partIsSpace (goIsSpace ch) [ch] chrest ?_ (by simp)
    simp [partIsSpace]
  rw [hns] at hps
  have hpne : p.data ≠ [] := by
    refine mem_splitTextAux_ne_empty (goIsSpace ch) [ch] chrest (by simp) p ?_
    rw [← splitTextPreserveSpaces_cons ch chrest tok.text hd, hsplit]
    simp
  obtain ⟨pch, ptail, hpd⟩ : ∃ a l, p.data = a :: l := by
    cases hx : p.data with
    | nil => exact absurd hx hpne
    | cons a l => exact ⟨a, l, rfl⟩
  have hpns : goIsSpace pch = false := by
    have : partIsSpace p = goIsSpace pch := by
      unfold partIsSpace
      rw [hpd]
    rw [← this, hps]
  unfold drawTokens
  rw [if_neg (by simp)]
  dsimp only
  rw [List.foldl_cons, List.foldl_nil]
  unfold dtTok
  rw [if_neg (by simp [hnl]), hsplit, List.foldl_cons]
  rw [dtSeg_first_step left ((right - left : ℤ) : ℚ)
    (if tok.font.isNone then c.fonts.Regular else tok.font) tok c p pch ptail
    hpd hpns]
  have hnf := dtSeg_nofits left ((right - left : ℤ) : ℚ)
    (if tok.font.isNone then c.fonts.Regular else tok.font) tok prest
    { line := [⟨p, if tok.font.isNone then c.fonts.Regular else tok.font,
        tok.size, tok.color, tok.underline⟩]
      lineWidth := 0 + measureWidth (if tok.font.isNone then c.fonts.Regular
        else tok.font) tok.size p
      lineMaxSize := if tok.size > (0 : ℚ) then tok.size else 0
      c := c }
    (fun x hx => hnn x (by rw [hsplit]; simp [hx]))
    (by
      rw [hsplit, List.map_cons, List.sum_cons] at hfits
      dsimp only
      linarith)
    (by simp)
  set sF := prest.foldl (dtSeg left ((right - left : ℤ) : ℚ)
    (if tok.font.isNone then c.fonts.Regular else tok.font) tok)
    { line := [⟨p, if tok.font.isNone then c.fonts.Regular else tok.font,
        tok.size, tok.color, tok.underline⟩]
      lineWidth := 0 + measureWidth (if tok.font.isNone then c.fonts.Regular
        else tok.font) tok.size p
      lineMaxSize := if tok.size > (0 : ℚ) then tok.size else 0
      c := c } with hsF
  have hflush : flushLine left false sF =
      { line := []
        lineWidth := 0
        lineMaxSize := 0
        c := { sF.c with
          ops := sF.c.ops ++ [.textLine sF.line left
            (sF.c.cursorY + goInt (if sF.lineMaxSize = 0 then sF.c.ptSize
              else sF.lineMaxSize))]
          cursorY := sF.c.cursorY +
            (if goInt ((if sF.lineMaxSize = 0 then sF.c.ptSize
                else sF.lineMaxSize) * 1.5 + 0.5) ≤ 0 then
              goInt (sF.c.ptSize * 1.5 + 0.5)
            else goInt ((if sF.lineMaxSize = 0 then sF.c.ptSize
                else sF.lineMaxSize) * 1.5 + 0.5)) } } := by
    unfold flushLine
    rw [if_neg (by simpa [List.isEmpty_iff] using hnf.2)]
  refine ⟨sF.line, sF.c.cursorY + goInt (if sF.lineMaxSize = 0 then sF.c.ptSize
    else sF.lineMaxSize), ?_⟩
  show (pushTrace c.cursorY (flushLine left false sF).c).ops = _
  rw [hflush]
  show sF.c.ops ++ _ = _
  rw [hnf.1]

theorem enterNode_none (r : RState) (n : MdNode) : (enterNode r n).2.2 = none := by
  cases n with
  | paragraph ch =>
    unfold enterNode
    dsimp only
    split <;> rfl
  | blockquote ch =>
    unfold enterNode
    dsimp only
    split <;> rfl
  | unknown kind isInline ch =>
    unfold enterNode
    dsimp only
    split <;> rfl
  | _ => rfl

theorem exitNode_none (r : RState) (n : MdNode) : (exitNode r n).2.2 = none := by
  cases n <;> rfl

/-- The walker never returns a non-nil error, for any state and any
document tree: every dispatch arm absorbs its node locally. -/
theorem walk_no_error :
    (∀ (r : RState) (n : MdNode), (walkNode r n).2.2 = none) ∧
    (∀ (r : RState) (l : List MdNode), (walkList r l).2.2 = none) := by
  refine walkNode.mutual_induct
    (fun r n => (walkNode r n).2.2 = none)
    (fun r l => (walkList r l).2.2 = none)
    ?_ ?_ ?_ ?_ ?_ ?_ ?_ ?_ ?_
  · intro r n r₂ ws₂ e henter
    exact absurd (enterNode_none r n) (by rw [henter]; simp)
  · intro r n r₂ henter
    have hw : walkNode r n = (r₂, .walkStop, none) := by
      simp [walkNode, henter]
    rw [hw]
  · intro r n r₂ ws₂ henter hws r₃ ws₃ e hif ih
    by_cases hskip : ws₂ = .walkSkipChildren
    · rw [dif_pos hskip] at hif
      simp at hif
    · rw [dif_neg hskip] at hif
      exact absurd ih (by rw [hif]; simp)
  · intro r n r₂ ws₂ henter hws r₃ hif ih
    have hif' : (if ws₂ = WalkStatus.walkSkipChildren then
        (r₂, WalkStatus.walkContinue, (none : Option String))
        else walkList r₂ n.childrenOf) = (r₃, .walkStop, none) := by
      simpa using hif
    have hw : walkNode r n = (r₃, .walkStop, none) := by
      simp [walkNode, henter, hws, hif']
    rw [hw]
  · intro r n r₂ ws₂ henter hws r₃ ws₃ hif hws₃ ih
    have hif' : (if ws₂ = WalkStatus.walkSkipChildren then
        (r₂, WalkStatus.walkContinue, (none : Option String))
        else walkList r₂ n.childrenOf) = (r₃, ws₃, none) := by
      simpa using hif
    have hw : walkNode r n = exitNode r₃ n := by
      simp [walkNode, henter, hws, hif', hws₃]
    rw [hw]
    exact exitNode_none r₃ n
  · intro r
    have hw : walkList r [] = (r, .walkContinue, none) := by
      simp only [walkList]
    rw [hw]
  · intro r child rest r₂ ws₂ e hchild ih
    exact absurd ih (by rw [hchild]; simp)
  · intro r child rest r₂ hchild ih
    have hw : walkList r (child :: rest) = (r₂, .walkStop, none) := by
      simp [walkList, hchild]
    rw [hw]
  · intro r child rest r₂ ws₂ hchild hws ih₁ ih₂
    have hw : walkList r (child :: rest) = walkList r₂ rest := by
      simp only [walkList, hchild, if_neg hws]
    rw [hw]
    exact ih₂

/-- The default (unsupported-block) arm skips the node's children and
draws the warning marker: the walk result does not depend on the
children at all. -/
theorem walkNode_unknown (r : RState) (kind : String) (ch : List MdNode) :
    walkNode r (.unknown kind false ch) =
      (renderUnsupportedNode (ensureAndLeft r).1 kind (ensureAndLeft r).2,
        .walkContinue, none) := by
  have henter : enterNode r (.unknown kind false ch) =
      (renderUnsupportedNode (ensureAndLeft r).1 kind (ensureAndLeft r).2,
        .walkSkipChildren, none) := rfl
  simp [walkNode, henter, exitNode]

/-- `renderUnsupportedNode` appends only warning-styled text lines whose
concatenated text is exactly the marker string. -/
theorem renderUnsupportedNode_ops (r : RState) (kind : String) (left : ℤ) :
    ∃ Δ : List (List styledWord × ℤ × ℤ),
      (renderUnsupportedNode r kind left).c.ops = r.c.ops ++ Δ.map lineOp ∧
      Δ ≠ [] ∧
      (∀ t ∈ Δ, (∀ w ∈ t.1, w.color = r.c.th.Warning ∧
        w.size = r.baseSize * 0.9 ∧ w.font = r.c.fonts.Regular ∧
        w.underline = false) ∧ t.1 ≠ []) ∧
      concatAll (Δ.map (fun t => wordsText t.1)) = "⚠ unsupported: " ++ kind := by
  have hd : ("⚠ unsupported: " ++ kind).data =
      '⚠' :: (" unsupported: ".data ++ kind.data) := by
    show ("⚠ unsupported: ").data ++ kind.data = _
    rfl
  obtain ⟨Δ, hops, hne, hΔ, hc⟩ := drawTokens_single_token r.c
    { text := "⚠ unsupported: " ++ kind, font := r.c.fonts.Regular,
      size := r.baseSize * 0.9, color := r.c.th.Warning }
    left (r.c.w - r.c.margin) rfl '⚠' (" unsupported: ".data ++ kind.data) hd
    (by decide)
  have hfont : (if (r.c.fonts.Regular : Option FontAndFace).isNone
      then r.c.fonts.Regular else r.c.fonts.Regular) = r.c.fonts.Regular := by
    split <;> rfl
  refine ⟨Δ, ?_, hne, ?_, hc⟩
  · show (pushTrace r.c.cursorY (addVSpace (drawTokens r.c _ left
      (r.c.w - r.c.margin)) (goInt r.baseSize))).ops = _
    simp only [pushTrace, addVSpace]
    exact hops
  · intro t ht
    refine ⟨?_, (hΔ t ht).2⟩
    intro w hw
    obtain ⟨hsz, hcol, hund, hfnt⟩ := (hΔ t ht).1 w hw
    exact ⟨hcol, hsz, by rw [hfnt]; exact hfont, hund⟩

/-- When the marker fits on one line, exactly one warning line is drawn. -/
theorem renderUnsupportedNode_single (r : RState) (kind : String) (left : ℤ)
    (hnn : ∀ seg ∈ splitTextPreserveSpaces ("⚠ unsupported: " ++ kind),
      0 ≤ measureWidth r.c.fonts.Regular (r.baseSize * 0.9) seg)
    (hfits : ((splitTextPreserveSpaces ("⚠ unsupported: " ++ kind)).map
      (measureWidth r.c.fonts.Regular (r.baseSize * 0.9))).sum ≤
      ((r.c.w - r.c.margin - left : ℤ) : ℚ)) :
    ∃ ws bl, (renderUnsupportedNode r kind left).c.ops =
      r.c.ops ++ [DrawOp.textLine ws left bl] := by
  have hd : ("⚠ unsupported: " ++ kind).data =
      '⚠' :: (" unsupported: ".data ++ kind.data) := by
    show ("⚠ unsupported: ").data ++ kind.data = _
    rfl
  have hfont : (if (r.c.fonts.Regular : Option FontAndFace).isNone
      then r.c.fonts.Regular else r.c.fonts.Regular) = r.c.fonts.Regular := by
    split <;> rfl
  obtain ⟨ws, bl, hops⟩ := drawTokens_single_token_fits r.c
    { text := "⚠ unsupported: " ++ kind, font := r.c.fonts.Regular,
      size := r.baseSize * 0.9, color := r.c.th.Warning }
    left (r.c.w - r.c.margin) rfl '⚠' (" unsupported: ".data ++ kind.data) hd
    (by decide) (by rw [hfont]; exact hnn)
    (by
      rw [hfont]
      have : ((r.c.w - r.c.margin - left : ℤ) : ℚ) =
          ((r.c.w - r.c.margin - left : ℤ) : ℚ) := rfl
      push_cast
      push_cast at hfits
      linarith)
  refine ⟨ws, bl, ?_⟩
  show (pushTrace r.c.cursorY (addVSpace (drawTokens r.c _ left
    (r.c.w - r.c.margin)) (goInt r.baseSize))).ops = _
  simp only [pushTrace, addVSpace]
  exact hops

theorem render_fst (r : RState) (doc : MdNode) :
    (render r doc).1 = (walkNode r doc).1 := by
  unfold render
  rcases h : walkNode r doc with ⟨r', ws, e⟩
  rfl

theorem render_snd_none (r : RState) (doc : MdNode) :
    (render r doc).2 = none := by
  have hne := walk_no_error.1 r doc
  unfold render
  rcases h : walkNode r doc with ⟨r', ws, e⟩
  rw [h] at hne
  exact hne

/-- C4: the canvas's vertical cursor never decreases.  During a render
started from `Render`'s initial state, every recorded canvas/renderer
operation has `cursor after ≥ cursor before`, and the final cursor is at
or below its starting position (the top margin) on the page. -/
theorem cursorY_never_decreases (doc : MdNode) (width margin : ℤ)
    (th : Theme) (fonts : Fonts) (b : ℚ) (hb : 0 ≤ b) :
    (∀ p ∈ ((render ⟨newCanvas width margin th fonts b, b, [], []⟩ doc).1).c.trace,
      p.1 ≤ p.2) ∧
    margin ≤ ((render ⟨newCanvas width margin th fonts b, b, [], []⟩ doc).1).c.cursorY := by
  have hg := walk_good.1 ⟨newCanvas width margin th fonts b, b, [], []⟩ doc hb hb
  rw [render_fst]
  obtain ⟨Δ, hΔ, hok⟩ := hg.1.trace
  constructor
  · intro p hp
    rw [hΔ] at hp
    refine hok p ?_
    simpa [newCanvas] using hp
  · exact hg.1.mono

theorem cursorY_never_decreases_witness :
    (0 : ℚ) ≤ 16 ∧
    (∀ p ∈ ((render ⟨newCanvas 1024 48 lightTheme ⟨none, none, none⟩ 16,
        16, [], []⟩ (.document [.thematicBreak])).1).c.trace, p.1 ≤ p.2) :=
  ⟨by norm_num,
    (cursorY_never_decreases (.document [.thematicBreak]) 1024 48 lightTheme
      ⟨none, none, none⟩ 16 (by norm_num)).1⟩

theorem walkNode_document_nil (r : RState) :
    walkNode r (.document []) = (r, .walkContinue, none) := by
  have henter : enterNode r (.document []) = (r, .walkContinue, none) := rfl
  have hch : (MdNode.document []).childrenOf = [] := rfl
  simp [walkNode, henter, hch, walkList, exitNode]

theorem render_pair (r : RState) (doc : MdNode) :
    render r doc = ((render r doc).1, none) := by
  have h₁ := render_snd_none r doc
  rcases h : render r doc with ⟨r', e⟩
  rw [h] at h₁
  simp only at h₁
  rw [h₁]

/-- C6 counterexample: with margin 60 (allowed by `Render`, since only
non-positive margins are replaced by the default 48), the empty document
renders at height `2 · margin = 120`, not `margin + 50 = 110`. -/
theorem render_height_counterexample :
    Render (fun _ => 0) (fun _ => 0) (fun _ => 0) (.document [])
      { Margin := 60 } = .ok ⟨1024, 120⟩ ∧ (120 : ℤ) ≠ 60 + 50 := by
  constructor
  · unfold Render
    norm_num [emptyTheme]
    rw [render_pair, render_fst, walkNode_document_nil]
    norm_num [newCanvas]
  · decide

theorem Render_eq (bundledRegular bundledBold bundledMono : String → ℤ)
    (doc : MdNode) (opts : RenderOptions) :
    Render bundledRegular bundledBold bundledMono doc opts =
      .ok ⟨if opts.Width ≤ 0 then 1024 else opts.Width,
        if finalCursor bundledRegular bundledBold bundledMono doc opts +
              (if opts.Margin ≤ 0 then 48 else opts.Margin) <
            (if opts.Margin ≤ 0 then 48 else opts.Margin) + 50 then
          (if opts.Margin ≤ 0 then 48 else opts.Margin) + 50
        else
          finalCursor bundledRegular bundledBold bundledMono doc opts +
            (if opts.Margin ≤ 0 then 48 else opts.Margin)⟩ := by
  obtain ⟨W, M, B, T, oR, oB, oM⟩ := opts
  cases oR <;> cases oB <;> cases oM <;>
  · unfold Render finalCursor
    dsimp only
    rw [render_pair]
    rfl

theorem finalCursor_ge (bundledRegular bundledBold bundledMono : String → ℤ)
    (doc : MdNode) (opts : RenderOptions) :
    (if opts.Margin ≤ 0 then 48 else opts.Margin) ≤
      finalCursor bundledRegular bundledBold bundledMono doc opts := by
  have hbase : (0 : ℚ) ≤ (if opts.BaseFontSize ≤ 0 then (16 : ℚ) else opts.BaseFontSize) := by
    split
    · norm_num
    · linarith [not_le.mp (by assumption)]
  have key : ∀ (fonts : Fonts) (w m : ℤ) (th : Theme),
      m ≤ (render ⟨newCanvas w m th fonts
            (if opts.BaseFontSize ≤ 0 then 16 else opts.BaseFontSize),
            (if opts.BaseFontSize ≤ 0 then 16 else opts.BaseFontSize), [], []⟩
          doc).1.c.cursorY := by
    intro fonts w m th
    rw [render_fst]
    exact (walk_good.1 ⟨newCanvas w m th fonts
      (if opts.BaseFontSize ≤ 0 then 16 else opts.BaseFontSize),
      (if opts.BaseFontSize ≤ 0 then 16 else opts.BaseFontSize), [], []⟩
      doc hbase hbase).1.mono
  unfold finalCursor
  dsimp only
  exact key _ _ _ _

theorem finalCursor_nil (bundledRegular bundledBold bundledMono : String → ℤ)
    (opts : RenderOptions) :
    finalCursor bundledRegular bundledBold bundledMono (.document []) opts =
      (if opts.Margin ≤ 0 then 48 else opts.Margin) := by
  unfold finalCursor
  dsimp only
  rw [render_fst, walkNode_document_nil]
  rfl

/-- C6 amended: `Render` always succeeds, and the image height is the final
cursor plus the margin, floored at `margin + 50`; the final cursor never
ends above the top margin, and for an empty document equals the margin, so
an empty document yields height `max (2·margin) (margin + 50)` — which is
`margin + 50` only for margins below 50 such as the default 48. -/
theorem Render_height_spec (bundledRegular bundledBold bundledMono : String → ℤ)
    (doc : MdNode) (opts : RenderOptions) :
    Render bundledRegular bundledBold bundledMono doc opts =
      .ok ⟨if opts.Width ≤ 0 then 1024 else opts.Width,
        max (finalCursor bundledRegular bundledBold bundledMono doc opts +
            (if opts.Margin ≤ 0 then 48 else opts.Margin))
          ((if opts.Margin ≤ 0 then 48 else opts.Margin) + 50)⟩ ∧
    (if opts.Margin ≤ 0 then 48 else opts.Margin) ≤
      finalCursor bundledRegular bundledBold bundledMono doc opts ∧
    (doc = .document [] →
      finalCursor bundledRegular bundledBold bundledMono doc opts =
        (if opts.Margin ≤ 0 then 48 else opts.Margin)) := by
  refine ⟨?_, finalCursor_ge _ _ _ doc opts, fun h => ?_⟩
  · rw [Render_eq]
    simp only [Except.ok.injEq, RImage.mk.injEq, eq_self_iff_true, true_and]
    split <;> omega
  · rw [h]
    exact finalCursor_nil _ _ _ opts

/-- Witness for `Render_height_spec`: the empty document with all-default
options renders at height `48 + 50 = 98`. -/
theorem Render_height_spec_witness :
    Render (fun _ => 0) (fun _ => 0) (fun _ => 0) (.document []) {} =
      .ok ⟨1024, 98⟩ := by
  have h := Render_height_spec (fun _ => 0) (fun _ => 0) (fun _ => 0)
    (.document []) {}
  have hc := h.2.2 rfl
  have h1 := h.1
  rw [hc] at h1
  refine h1.trans ?_
  norm_num [max_def]

theorem measureWidth_none (size : ℚ) (s : String) :
    measureWidth none size s = 0 := rfl

theorem measure_sum_none (size : ℚ) (l : List String) :
    (l.map (measureWidth none size)).sum = 0 := by
  induction l with
  | nil => rfl
  | cons a t ih => simp [measureWidth_none, ih]

/-- A small renderer state used to instantiate hypotheses: 200 px wide,
margin 10, no fonts configured (all widths measure 0), base size 10. -/
def demoState : RState :=
  ⟨newCanvas 200 10 lightTheme ⟨none, none, none⟩ 10, 10, [], []⟩

/-- C3: an unrecognized block node never causes an error.  The walker
replaces it, via `renderUnsupportedNode`, with warning-colored text lines
whose concatenated text is exactly `"⚠ unsupported: <kind>"` (a single
text-line op when the marker fits the available row), its children are
skipped (the walk result does not depend on them), and both the walk and
`Render` always complete without error — `Render` can fail for no input
document at all. -/
theorem unsupported_renders_warning (r : RState) (kind : String)
    (ch : List MdNode)
    (bundledRegular bundledBold bundledMono : String → ℤ)
    (doc : MdNode) (opts : RenderOptions)
    (hnn : ∀ seg ∈ splitTextPreserveSpaces ("⚠ unsupported: " ++ kind),
      0 ≤ measureWidth (ensureAndLeft r).1.c.fonts.Regular
        ((ensureAndLeft r).1.baseSize * 0.9) seg)
    (hfits : ((splitTextPreserveSpaces ("⚠ unsupported: " ++ kind)).map
        (measureWidth (ensureAndLeft r).1.c.fonts.Regular
          ((ensureAndLeft r).1.baseSize * 0.9))).sum ≤
      (((ensureAndLeft r).1.c.w - (ensureAndLeft r).1.c.margin -
        (ensureAndLeft r).2 : ℤ) : ℚ)) :
    (walkNode r (.unknown kind false ch)).2.2 = none ∧
    walkNode r (.unknown kind false ch) = walkNode r (.unknown kind false []) ∧
    (∃ Δ : List (List styledWord × ℤ × ℤ),
      (walkNode r (.unknown kind false ch)).1.c.ops =
        (ensureAndLeft r).1.c.ops ++ Δ.map lineOp ∧
      Δ ≠ [] ∧
      (∀ t ∈ Δ, (∀ w ∈ t.1, w.color = (ensureAndLeft r).1.c.th.Warning ∧
        w.size = (ensureAndLeft r).1.baseSize * 0.9 ∧
        w.font = (ensureAndLeft r).1.c.fonts.Regular ∧
        w.underline = false) ∧ t.1 ≠ []) ∧
      concatAll (Δ.map (fun t => wordsText t.1)) = "⚠ unsupported: " ++ kind) ∧
    (∃ ws bl, (walkNode r (.unknown kind false ch)).1.c.ops =
      (ensureAndLeft r).1.c.ops ++
        [DrawOp.textLine ws (ensureAndLeft r).2 bl]) ∧
    (render r doc).2 = none ∧
    (∃ img, Render bundledRegular bundledBold bundledMono doc opts = .ok img) := by
  refine ⟨walk_no_error.1 r _, by rw [walkNode_unknown, walkNode_unknown], ?_, ?_,
    render_snd_none r doc, ⟨_, Render_eq bundledRegular bundledBold bundledMono doc opts⟩⟩
  · rw [walkNode_unknown]
    exact renderUnsupportedNode_ops (ensureAndLeft r).1 kind (ensureAndLeft r).2
  · rw [walkNode_unknown]
    exact renderUnsupportedNode_single (ensureAndLeft r).1 kind (ensureAndLeft r).2 hnn hfits

/-- Witness for `unsupported_renders_warning`: the concrete state
`demoState`, kind `"custom"`, a non-empty child list, and the empty
document for the `Render` component. -/
theorem unsupported_renders_warning_witness :
    (walkNode demoState (.unknown "custom" false [.thematicBreak])).2.2 = none ∧
    (∃ ws bl,
      (walkNode demoState (.unknown "custom" false [.thematicBreak])).1.c.ops =
        (ensureAndLeft demoState).1.c.ops ++
          [DrawOp.textLine ws (ensureAndLeft demoState).2 bl]) ∧
    (∃ img, Render (fun _ => 0) (fun _ => 0) (fun _ => 0) (.document []) {} =
      .ok img) := by
  have h := unsupported_renders_warning demoState "custom" [.thematicBreak]
    (fun _ => 0) (fun _ => 0) (fun _ => 0) (.document []) {}
    (fun seg _ => le_of_eq rfl)
    (by
      show ((splitTextPreserveSpaces ("⚠ unsupported: " ++ "custom")).map
          (measureWidth none ((10 : ℚ) * 0.9))).sum ≤
        (((200 : ℤ) - 10 - 10 : ℤ) : ℚ)
      rw [measure_sum_none]
      norm_num)
  exact ⟨h.1, h.2.2.2.1, h.2.2.2.2.2⟩

theorem one_le_goInt {q : ℚ} (h : 1 ≤ q) : 1 ≤ goInt q := by
  unfold goInt
  rw [if_pos (le_trans (by norm_num) h)]
  exact Int.le_floor.mpr (by exact_mod_cast h)

/-- C7: three nested `pushListContext` calls from a list-free state produce
left-indent columns `margin`, `margin + step`, `margin + 2·step` for the
fixed step `goInt (baseSize · 1.8)`, which are strictly increasing (the
step is at least 1 whenever the base size is at least 1); an ordered list
item takes the marker `"<counter>."` and the counter is incremented after
use, an unordered item takes the bullet and leaves the list stack
unchanged; and every newly pushed (nested) list context starts its own
counter afresh at `max 1 start`, independent of any enclosing list. -/
theorem list_nesting_spec (r : RState) (o₁ o₂ o₃ t₁ t₂ t₃ : Bool)
    (s₁ s₂ s₃ : ℤ) (hstack : r.listStack = []) (hbase : 1 ≤ r.baseSize) :
    (pushListContext (pushListContext (pushListContext r o₁ s₁ t₁) o₂ s₂ t₂)
        o₃ s₃ t₃).listStack.map (fun ctx => ctx.indent) =
      [r.c.margin, r.c.margin + goInt (r.baseSize * 1.8),
        r.c.margin + 2 * goInt (r.baseSize * 1.8)] ∧
    1 ≤ goInt (r.baseSize * 1.8) ∧
    List.Pairwise (fun a b => a < b)
      ((pushListContext (pushListContext (pushListContext r o₁ s₁ t₁) o₂ s₂ t₂)
        o₃ s₃ t₃).listStack.map (fun ctx => ctx.indent)) ∧
    (∀ (r' : RState) (ctx : listContext), r'.listStack.getLast? = some ctx →
      ctx.isOrdered = true →
      (beginListItem r').itemStack.getLast? =
        some ⟨toString ctx.counter ++ ".", false⟩ ∧
      (beginListItem r').listStack.getLast? =
        some { ctx with counter := ctx.counter + 1 }) ∧
    (∀ (r' : RState) (ctx : listContext), r'.listStack.getLast? = some ctx →
      ctx.isOrdered = false →
      (beginListItem r').itemStack.getLast? = some ⟨"•", false⟩ ∧
      (beginListItem r').listStack = r'.listStack) ∧
    (∀ (r' : RState) (o t : Bool) (s : ℤ),
      ((pushListContext r' o s t).listStack.getLast?).map
        (fun ctx => ctx.counter) = some (if s ≤ 0 then 1 else s)) := by
  have hstep : 1 ≤ goInt (r.baseSize * 1.8) := one_le_goInt (by linarith)
  have hmap : (pushListContext (pushListContext (pushListContext r o₁ s₁ t₁)
        o₂ s₂ t₂) o₃ s₃ t₃).listStack.map (fun ctx => ctx.indent) =
      [r.c.margin, r.c.margin + goInt (r.baseSize * 1.8),
        r.c.margin + 2 * goInt (r.baseSize * 1.8)] := by
    simp [pushListContext, traceR, pushTrace, addVSpace, hstack]
  refine ⟨hmap, hstep, ?_, ?_, ?_, ?_⟩
  · rw [hmap]
    simp [List.pairwise_cons]
    omega
  · intro r' ctx h hord
    constructor <;> simp [beginListItem, h, hord, traceR, pushTrace,
      List.getLast?_concat]
  · intro r' ctx h hord
    constructor <;> simp [beginListItem, h, hord, traceR, pushTrace,
      List.getLast?_concat]
  · intro r' o t s
    simp [pushListContext, traceR, pushTrace, addVSpace, List.getLast?_concat]

/-- Witness for `list_nesting_spec` at `demoState` (margin 10, base size
10): the indent step is `goInt 18 = 18` and the columns are 10, 28, 46. -/
theorem list_nesting_spec_witness :
    (pushListContext (pushListContext (pushListContext demoState true 0 true)
        true 0 true) true 0 true).listStack.map (fun ctx => ctx.indent) =
      [demoState.c.margin,
        demoState.c.margin + goInt (demoState.baseSize * 1.8),
        demoState.c.margin + 2 * goInt (demoState.baseSize * 1.8)] ∧
    1 ≤ goInt (demoState.baseSize * 1.8) := by
  have h := list_nesting_spec demoState true true true true true true 0 0 0
    rfl (by decide)
  exact ⟨h.1, h.2.1⟩

/-- A styled-word line whose first word starts with a non-whitespace
character. -/
def lineStartsNonWS (ws : List styledWord) : Bool :=
  match ws with
  | [] => false
  | w :: _ =>
    match w.text.data with
    | [] => false
    | ch :: _ => !goIsSpace ch

theorem lineStartsNonWS_append (l₁ l₂ : List styledWord) (h : l₁ ≠ []) :
    lineStartsNonWS (l₁ ++ l₂) = lineStartsNonWS l₁ := by
  cases l₁ with
  | nil => exact absurd rfl h
  | cons w t => rfl

/-- Every op beyond `base` is a styled text line starting with a
non-whitespace word. -/
def OpsOK (base ops : List DrawOp) : Prop :=
  ∀ op ∈ ops, op ∈ base ∨
    ∃ ws l bl, op = DrawOp.textLine ws l bl ∧ lineStartsNonWS ws = true

/-- The `drawTokens` fold invariant: accumulated ops are OK and the
pending visual line is empty or starts with a non-whitespace word. -/
def InvDT (base : List DrawOp) (s : DTState) : Prop :=
  OpsOK base s.c.ops ∧ (s.line = [] ∨ lineStartsNonWS s.line = true)

theorem flushLine_invDT (base : List DrawOp) (left : ℤ) (force : Bool)
    (s : DTState) (h : InvDT base s) : InvDT base (flushLine left force s) := by
  obtain ⟨hops, hline⟩ := h
  unfold flushLine
  by_cases hl : s.line.isEmpty = true
  · rw [if_pos hl]
    split
    · exact ⟨hops, hline⟩
    · exact ⟨hops, hline⟩
  · rw [if_neg hl]
    refine ⟨?_, Or.inl rfl⟩
    intro op hop
    rcases List.mem_append.mp hop with h₁ | h₂
    · exact hops op h₁
    · refine Or.inr ⟨s.line, left, _, List.mem_singleton.mp h₂, ?_⟩
      rcases hline with hnil | hgood
      · exact absurd (by rw [hnil]; rfl) hl
      · exact hgood

theorem flushLine_line_empty (left : ℤ) (force : Bool) (s : DTState)
    (h : s.line.isEmpty = false) : (flushLine left force s).line = [] := by
  unfold flushLine
  rw [if_neg (by simp [h])]

theorem dtSeg_invDT (base : List DrawOp) (left : ℤ) (maxWidth : ℚ)
    (font : Option FontAndFace) (tok : textToken) (s : DTState) (seg : String)
    (h : InvDT base s) : InvDT base (dtSeg left maxWidth font tok s seg) := by
  obtain ⟨hops, hline⟩ := h
  unfold dtSeg
  rcases hd : seg.data with _ | ⟨ch, tl⟩
  · exact ⟨hops, hline⟩
  · dsimp only
    by_cases hsp : goIsSpace ch = true
    · rw [if_pos hsp]
      by_cases hl : s.line.isEmpty = true
      · rw [if_pos hl]
        exact ⟨hops, hline⟩
      · rw [if_neg hl]
        have hne : s.line ≠ [] := by
          intro hnil
          exact hl (by rw [hnil]; rfl)
        refine ⟨hops, Or.inr ?_⟩
        rw [lineStartsNonWS_append _ _ hne]
        rcases hline with hnil | hgood
        · exact absurd hnil hne
        · exact hgood
    · rw [if_neg hsp]
      have hsp' : goIsSpace ch = false := by
        simpa using hsp
      split
      · rename_i hcond
        have h₁ := flushLine_invDT base left false s ⟨hops, hline⟩
        refine ⟨h₁.1, Or.inr ?_⟩
        rw [flushLine_line_empty left false s hcond.2, List.nil_append]
        simp [lineStartsNonWS, hd, hsp']
      · refine ⟨hops, Or.inr ?_⟩
        rcases hline with hnil | hgood
        · rw [hnil, List.nil_append]
          simp [lineStartsNonWS, hd, hsp']
        · have hne : s.line ≠ [] := by
            intro hnil
            rw [hnil] at hgood
            simp [lineStartsNonWS] at hgood
          rw [lineStartsNonWS_append _ _ hne]
          exact hgood

theorem foldl_pres {α β : Type} (P : β → Prop) (f : β → α → β)
    (hf : ∀ b a, P b → P (f b a)) :
    ∀ (l : List α) (b : β), P b → P (l.foldl f b) := by
  intro l
  induction l with
  | nil => exact fun b hb => hb
  | cons a t ih => exact fun b hb => ih (f b a) (hf b a hb)

theorem dtTok_invDT (base : List DrawOp) (left : ℤ) (maxWidth : ℚ)
    (s : DTState) (tok : textToken) (h : InvDT base s) :
    InvDT base (dtTok left maxWidth s tok) := by
  unfold dtTok
  split
  · exact flushLine_invDT base left true s h
  · dsimp only
    exact foldl_pres (InvDT base) _
      (fun b a hb => dtSeg_invDT base left maxWidth _ tok b a hb) _ s h

theorem drawTokens_opsOK (c : canvas) (tokens : List textToken)
    (left right : ℤ) : OpsOK c.ops (drawTokens c tokens left right).ops := by
  unfold drawTokens
  split
  · exact fun op hop => Or.inl hop
  · dsimp only
    exact (flushLine_invDT c.ops left false _
      (foldl_pres (InvDT c.ops) _
        (fun b a hb => dtTok_invDT c.ops left ((right - left : ℤ) : ℚ) b a hb)
        tokens ⟨[], 0, 0, c⟩ ⟨fun op hop => Or.inl hop, Or.inl rfl⟩)).1

/-- C10: every op `drawTokens` adds beyond those already on the canvas is
a styled text line whose first word starts with a non-whitespace
character — a whitespace segment arriving while the visual line is empty
is discarded, so flushed styled lines never begin with whitespace.  By
contrast the code-block path stores its wrapped plain-text lines
verbatim: each hard line concatenates back unchanged, leading indentation
included. -/
theorem drawTokens_no_leading_whitespace (c : canvas) (tokens : List textToken)
    (left right : ℤ) :
    (∀ op ∈ (drawTokens c tokens left right).ops,
      op ∈ c.ops ∨
      ∃ ws l bl, op = DrawOp.textLine ws l bl ∧ lineStartsNonWS ws = true) ∧
    (∀ (text : String) (size : ℚ) (l r : ℤ),
      ∃ rectOp top,
        (drawCodeBlock c text l r size).ops =
          c.ops ++ [rectOp,
            DrawOp.codeText
              (wrapLines c.fonts.Mono size text ((r - l - 2 * 10 : ℤ) : ℚ))
              (l + 10) top] ∧
        ∀ ln ∈ scanLines text,
          concatAll (wrapHardLine c.fonts.Mono size ((r - l - 2 * 10 : ℤ) : ℚ)
            ln) = ln) := by
  refine ⟨fun op hop => drawTokens_opsOK c tokens left right op hop, ?_⟩
  intro text size l r
  exact ⟨_, _, rfl, fun ln _ => concatAll_wrapHardLine c.fonts.Mono size _ ln⟩

/-- Witness for `drawTokens_no_leading_whitespace`: a pre-existing op
survives untouched through `drawTokens`, and the code-block path stores
the wrapped lines of an indented text verbatim. -/
theorem drawTokens_no_leading_whitespace_witness :
    (DrawOp.rect 0 0 1 1 lightTheme.FG ∈
        ({ demoState.c with
          ops := [DrawOp.rect 0 0 1 1 lightTheme.FG] } : canvas).ops ∨
      ∃ ws l bl, DrawOp.rect 0 0 1 1 lightTheme.FG = DrawOp.textLine ws l bl ∧
        lineStartsNonWS ws = true) ∧
    (∃ rectOp top,
      (drawCodeBlock demoState.c "  indented" 0 100 10).ops =
        demoState.c.ops ++ [rectOp,
          DrawOp.codeText
            (wrapLines demoState.c.fonts.Mono 10 "  indented"
              ((100 - 0 - 2 * 10 : ℤ) : ℚ)) (0 + 10) top] ∧
      ∀ ln ∈ scanLines "  indented",
        concatAll (wrapHardLine demoState.c.fonts.Mono 10
          ((100 - 0 - 2 * 10 : ℤ) : ℚ) ln) = ln) := by
  constructor
  · exact (drawTokens_no_leading_whitespace
      { demoState.c with ops := [DrawOp.rect 0 0 1 1 lightTheme.FG] }
      [] 0 0).1 (DrawOp.rect 0 0 1 1 lightTheme.FG) (by simp [drawTokens])
  · exact (drawTokens_no_leading_whitespace demoState.c [] 0 0).2
      "  indented" 10 0 100

/-! ## The Footnote Registry

The registry implementation is not among the sources under `src/` (the
repository's tests reference `r.footnotes` and `r.footnoteIndex`), so it
is modelled from the spec here. -/

/-- Modelled from the spec: the Footnote Registry is an insertion-ordered
mapping from a raw destination string to a 1-based index (`footnoteIndex`)
plus the ordered list of destinations (`footnotes`). -/
structure FootnoteRegistry where
  footnotes : List String
  footnoteIndex : List (String × ℕ)

/-- Modelled from the spec: map lookup in the destination-to-index
mapping. -/
def lookupIdx (l : List (String × ℕ)) (d : String) : Option ℕ :=
  match l with
  | [] => none
  | (k, v) :: rest => if k = d then some v else lookupIdx rest d

/-- Modelled from the spec: registering a destination returns the existing
index when the destination was seen before, otherwise appends it and
assigns the next sequential 1-based index. -/
def registerFootnote (reg : FootnoteRegistry) (dest : String) :
    FootnoteRegistry × ℕ :=
  match lookupIdx reg.footnoteIndex dest with
  | some idx => (reg, idx)
  | none =>
    let idx := reg.footnotes.length + 1
    (⟨reg.footnotes ++ [dest], reg.footnoteIndex ++ [(dest, idx)]⟩, idx)

/-- Modelled from the spec: the registry produced by registering a list of
destination references in document order, together with the index emitted
for each reference. -/
def runRegistry (refs : List String) : FootnoteRegistry × List ℕ :=
  refs.foldl
    (fun acc dest =>
      ((registerFootnote acc.1 dest).1,
        acc.2 ++ [(registerFootnote acc.1 dest).2]))
    (⟨[], []⟩, [])

/-- The 0-based position of the first occurrence of `d` in `l` (the
spec's "order of first encounter"). -/
def posIn (l : List String) (d : String) : ℕ :=
  match l with
  | [] => 0
  | a :: t => if a = d then 0 else posIn t d + 1

/-- The destinations in order of first occurrence. -/
def firstOccAux (seen : List String) : List String → List String
  | [] => seen
  | d :: rest => firstOccAux (if d ∈ seen then seen else seen ++ [d]) rest

def firstOccurrences (refs : List String) : List String := firstOccAux [] refs

/-- The canonical index mapping for a destination list: positions
`n + 1, n + 2, …`. -/
def indexPairs (l : List String) (n : ℕ) : List (String × ℕ) :=
  match l with
  | [] => []
  | d :: rest => (d, n + 1) :: indexPairs rest (n + 1)

theorem lookupIdx_indexPairs (seen : List String) (d : String) :
    ∀ n, lookupIdx (indexPairs seen n) d =
      if d ∈ seen then some (n + posIn seen d + 1) else none := by
  induction seen with
  | nil => intro n; simp [indexPairs, lookupIdx]
  | cons a t ih =>
    intro n
    by_cases had : a = d
    · subst had
      simp [indexPairs, lookupIdx, posIn]
    · simp only [indexPairs, lookupIdx]
      rw [if_neg had, ih (n + 1)]
      by_cases hmem : d ∈ t
      · rw [if_pos hmem, if_pos (by simp [hmem])]
        simp only [posIn, if_neg had, Option.some.injEq]
        omega
      · rw [if_neg hmem, if_neg ?_]
        simp only [List.mem_cons, not_or]
        exact ⟨fun h => had h.symm, hmem⟩

theorem lookupIdx_indexPairs₀ (seen : List String) (d : String) :
    lookupIdx (indexPairs seen 0) d =
      if d ∈ seen then some (posIn seen d + 1) else none := by
  rw [lookupIdx_indexPairs seen d 0]
  split <;> simp

theorem posIn_append_left (l₁ l₂ : List String) (d : String) (h : d ∈ l₁) :
    posIn (l₁ ++ l₂) d = posIn l₁ d := by
  induction l₁ with
  | nil => simp at h
  | cons a t ih =>
    by_cases had : a = d
    · simp [posIn, had, List.cons_append]
    · rcases List.mem_cons.mp h with h' | h'
      · exact absurd h'.symm had
      · simp [posIn, had, List.cons_append, ih h']

theorem posIn_append_self (l₁ l₂ : List String) (d : String) (h : d ∉ l₁) :
    posIn (l₁ ++ d :: l₂) d = l₁.length := by
  induction l₁ with
  | nil => simp [posIn]
  | cons a t ih =>
    have had : a ≠ d := fun hh => h (by simp [hh])
    simp [posIn, had, List.cons_append, ih (fun hh => h (by simp [hh]))]

theorem indexPairs_append_single (l : List String) (d : String) :
    ∀ n, indexPairs (l ++ [d]) n = indexPairs l n ++ [(d, n + l.length + 1)] := by
  induction l with
  | nil => intro n; simp [indexPairs]
  | cons a t ih =>
    intro n
    simp only [List.cons_append, indexPairs, List.append_eq, List.length_cons]
    have harith : n + 1 + t.length + 1 = n + (t.length + 1) + 1 := by omega
    rw [ih (n + 1), harith]

theorem firstOccAux_extend (seen refs : List String) :
    ∃ tail, firstOccAux seen refs = seen ++ tail := by
  induction refs generalizing seen with
  | nil => exact ⟨[], by simp [firstOccAux]⟩
  | cons d rest ih =>
    by_cases hmem : d ∈ seen
    · obtain ⟨tail, htail⟩ := ih seen
      refine ⟨tail, ?_⟩
      simp only [firstOccAux]
      rw [if_pos hmem]
      exact htail
    · obtain ⟨tail, htail⟩ := ih (seen ++ [d])
      refine ⟨d :: tail, ?_⟩
      simp only [firstOccAux]
      rw [if_neg hmem, htail]
      simp

theorem runRegistry_aux (refs : List String) :
    ∀ (seen : List String) (out : List ℕ),
      ((refs.foldl
        (fun acc dest =>
          ((registerFootnote acc.1 dest).1,
            acc.2 ++ [(registerFootnote acc.1 dest).2]))
        (⟨seen, indexPairs seen 0⟩, out)).1.footnotes =
          firstOccAux seen refs) ∧
      ((refs.foldl
        (fun acc dest =>
          ((registerFootnote acc.1 dest).1,
            acc.2 ++ [(registerFootnote acc.1 dest).2]))
        (⟨seen, indexPairs seen 0⟩, out)).1.footnoteIndex =
          indexPairs (firstOccAux seen refs) 0) ∧
      ((refs.foldl
        (fun acc dest =>
          ((registerFootnote acc.1 dest).1,
            acc.2 ++ [(registerFootnote acc.1 dest).2]))
        (⟨seen, indexPairs seen 0⟩, out)).2 =
          out ++ refs.map (fun d => posIn (firstOccAux seen refs) d + 1)) := by
  induction refs with
  | nil =>
    intro seen out
    exact ⟨rfl, rfl, by simp [firstOccAux]⟩
  | cons d rest ih =>
    intro seen out
    rw [List.foldl_cons]
    by_cases hmem : d ∈ seen
    · have hreg : registerFootnote ⟨seen, indexPairs seen 0⟩ d =
          (⟨seen, indexPairs seen 0⟩, posIn seen d + 1) := by
        unfold registerFootnote
        dsimp only
        rw [lookupIdx_indexPairs₀, if_pos hmem]
      dsimp only
      rw [hreg]
      dsimp only
      obtain ⟨h₁, h₂, h₃⟩ := ih seen (out ++ [posIn seen d + 1])
      have hfo : firstOccAux seen (d :: rest) = firstOccAux seen rest := by
        simp only [firstOccAux]
        rw [if_pos hmem]
      rw [hfo]
      refine ⟨h₁, h₂, ?_⟩
      rw [h₃, List.map_cons]
      obtain ⟨tail, htail⟩ := firstOccAux_extend seen rest
      rw [htail, posIn_append_left seen tail d hmem]
      simp
    · have hreg : registerFootnote ⟨seen, indexPairs seen 0⟩ d =
          (⟨seen ++ [d], indexPairs (seen ++ [d]) 0⟩, seen.length + 1) := by
        unfold registerFootnote
        dsimp only
        rw [lookupIdx_indexPairs₀, if_neg hmem]
        dsimp only
        rw [indexPairs_append_single]
        simp
      dsimp only
      rw [hreg]
      dsimp only
      obtain ⟨h₁, h₂, h₃⟩ := ih (seen ++ [d]) (out ++ [seen.length + 1])
      have hfo : firstOccAux seen (d :: rest) = firstOccAux (seen ++ [d]) rest := by
        simp only [firstOccAux]
        rw [if_neg hmem]
      rw [hfo]
      refine ⟨h₁, h₂, ?_⟩
      rw [h₃, List.map_cons]
      obtain ⟨tail, htail⟩ := firstOccAux_extend (seen ++ [d]) rest
      rw [htail, List.append_assoc seen [d] tail, List.singleton_append,
        posIn_append_self seen tail d hmem]
      simp

theorem runRegistry_spec (refs : List String) :
    (runRegistry refs).1.footnotes = firstOccurrences refs ∧
    (runRegistry refs).1.footnoteIndex = indexPairs (firstOccurrences refs) 0 ∧
    (runRegistry refs).2 =
      refs.map (fun d => posIn (firstOccurrences refs) d + 1) := by
  have h := runRegistry_aux refs [] []
  exact ⟨h.1, h.2.1, by simpa using h.2.2⟩

/-- C5: registering the same destination twice yields the same emitted
index both times; the registry's destination list is exactly the
references in order of first occurrence, and every emitted index is the
1-based position of its destination's first occurrence — never the
position of reuse. -/
theorem footnote_registry_first_occurrence (refs : List String) (i j : ℕ)
    (heq : refs[i]? = refs[j]?) :
    (runRegistry refs).2[i]? = (runRegistry refs).2[j]? ∧
    (runRegistry refs).1.footnotes = firstOccurrences refs ∧
    (runRegistry refs).2 =
      refs.map (fun d => posIn (firstOccurrences refs) d + 1) := by
  have h := runRegistry_spec refs
  refine ⟨?_, h.1, h.2.2⟩
  rw [h.2.2, List.getElem?_map, List.getElem?_map, heq]

/-- Witness for `footnote_registry_first_occurrence`: the references
`["a", "b", "a"]` — the third reference reuses the first destination and
receives index 1 again, with emitted indices `[1, 2, 1]`. -/
theorem footnote_registry_first_occurrence_witness :
    (runRegistry ["a", "b", "a"]).2[0]? =
        (runRegistry ["a", "b", "a"]).2[2]? ∧
    (runRegistry ["a", "b", "a"]).1.footnotes =
        firstOccurrences ["a", "b", "a"] ∧
    (runRegistry ["a", "b", "a"]).2 =
      ["a", "b", "a"].map
        (fun d => posIn (firstOccurrences ["a", "b", "a"]) d + 1) ∧
    (runRegistry ["a", "b", "a"]).2 = [1, 2, 1] := by
  have h := footnote_registry_first_occurrence ["a", "b", "a"] 0 2 (by decide)
  exact ⟨h.1, h.2.1, h.2.2, by decide⟩

end Md2png
